import Mathlib

/-!
Shallow embedding of the Game-Vibe-Chess core (chess rules engine, move
execution and history, and the minimax search agent) together with proofs
of the specification claims.

Source correspondence:
  js/chess-pieces.js : piece constants, createPiece, getInitialBoard, copyBoard
  chess-logic.js     : class ChessGame (board accessors, move generation,
                       legality filtering, makeMove, undoMove, checkGameState)
  chess-ui.js        : ChessUI.selectPiece (sets game.validMoves)
  chess-ai.js        : class ChessAI (minimax search agent)

Modelling conventions:
  JS objects become structures; JS arrays indexed 0..7 become functions out of
  Fin 8; JS numbers used as board coordinates become Int (JS arithmetic such
  as row + direction can go negative, and the source bounds-checks them);
  absent/null becomes Option. JS mutation is modelled by explicit state
  passing: every method that mutates the game returns the new state.
  JS array push/pop at the end of a list is modelled by cons/head on lists
  stored newest-first (moveHistory, captured-piece lists).
-/

namespace Chess

/-- Piece colors, from the COLORS constant of chess-pieces.js. -/
inductive Color where
  | white
  | black
deriving DecidableEq, Repr

/-- Opponent color, as computed at several places in chess-logic.js via
color === COLORS.WHITE ? COLORS.BLACK : COLORS.WHITE. -/
def Color.opposite : Color → Color
  | Color.white => Color.black
  | Color.black => Color.white

/-- Piece kinds, from the PIECES constant of chess-pieces.js. -/
inductive PieceType where
  | king
  | queen
  | rook
  | bishop
  | knight
  | pawn
deriving DecidableEq, Repr

/-- A piece object as built by createPiece in chess-pieces.js.  The display
field symbol is derived from type and color and read only by the UI, so it
is omitted here. -/
structure Piece where
  type : PieceType
  color : Color
  hasMoved : Bool
deriving DecidableEq, Repr

/-- Function createPiece of chess-pieces.js. -/
def createPiece (t : PieceType) (c : Color) : Piece :=
  { type := t, color := c, hasMoved := false }

/-- A board square as a row/col record, e.g. the enPassantTarget object. -/
structure Sq where
  row : Int
  col : Int
deriving DecidableEq, Repr

/-- The castling field of a move object: the strings kingside / queenside. -/
inductive CastleSide where
  | kingside
  | queenside
deriving DecidableEq, Repr

/-- A move object as pushed by the move generators of chess-logic.js:
destination coordinates plus optional flags (absent JS fields default to
false / none). -/
structure MoveInfo where
  row : Int
  col : Int
  capture : Bool := false
  promotion : Bool := false
  twoStep : Bool := false
  enPassant : Bool := false
  castling : Option CastleSide := none
deriving DecidableEq, Repr

/-- The 8 x 8 board: this.board of ChessGame, an array of arrays whose cells
hold a piece or null. -/
abbrev Board := Fin 8 → Fin 8 → Option Piece

/-- Method ChessGame.getPiece: bounds-checked cell read, null out of range. -/
def getPiece (b : Board) (row col : Int) : Option Piece :=
  if h : 0 ≤ row ∧ row ≤ 7 ∧ 0 ≤ col ∧ col ≤ 7 then
    b ⟨row.toNat, by omega⟩ ⟨col.toNat, by omega⟩
  else none

/-- Method ChessGame.setPiece: bounds-checked cell write, no-op out of
range. -/
def setPiece (b : Board) (row col : Int) (p : Option Piece) : Board :=
  if 0 ≤ row ∧ row ≤ 7 ∧ 0 ≤ col ∧ col ≤ 7 then
    fun i j => if i.val = row.toNat ∧ j.val = col.toNat then p else b i j
  else b

/-- Back rank layout used twice by getInitialBoard. -/
def backRank (c : Color) : List (Option Piece) :=
  [some (createPiece PieceType.rook c), some (createPiece PieceType.knight c),
   some (createPiece PieceType.bishop c), some (createPiece PieceType.queen c),
   some (createPiece PieceType.king c), some (createPiece PieceType.bishop c),
   some (createPiece PieceType.knight c), some (createPiece PieceType.rook c)]

/-- Rank of eight pawns used twice by getInitialBoard. -/
def pawnRank (c : Color) : List (Option Piece) :=
  List.replicate 8 (some (createPiece PieceType.pawn c))

/-- Function getInitialBoard of chess-pieces.js: black pieces on rows 0-1,
white pieces on rows 6-7, empty elsewhere. -/
def getInitialBoard : Board := fun i j =>
  (([backRank Color.black, pawnRank Color.black, [], [], [], [],
     pawnRank Color.white, backRank Color.white].getD i.val []).getD j.val none)

/-- Function copyBoard of chess-pieces.js returns a structurally independent
deep copy; with value semantics a deep copy is the board itself. -/
def copyBoard (b : Board) : Board := b

/-- Pawn move direction: -1 for white, 1 for black (getPawnMoves). -/
def pawnDir (p : Piece) : Int := if p.color = Color.white then -1 else 1

/-- Pawn start row: 6 for white, 1 for black (getPawnMoves). -/
def pawnStartRow (p : Piece) : Int := if p.color = Color.white then 6 else 1

/-- Pawn promotion row: 0 for white, 7 for black (getPawnMoves). -/
def promotionRowOf (p : Piece) : Int := if p.color = Color.white then 0 else 7

/-- The forward-move block of ChessGame.getPawnMoves (single step, then the
two-square advance from the start row), executed only when attackOnly is
false. -/
def pawnForward (b : Board) (row col : Int) (p : Piece) : List MoveInfo :=
  let oneStep := row + pawnDir p
  if 0 ≤ oneStep ∧ oneStep ≤ 7 ∧ getPiece b oneStep col = none then
    ({ row := oneStep, col := col, promotion := decide (oneStep = promotionRowOf p) } : MoveInfo) ::
      (if row = pawnStartRow p ∧ getPiece b (row + 2 * pawnDir p) col = none then
        [{ row := row + 2 * pawnDir p, col := col, twoStep := true }]
      else [])
  else []

/-- One iteration of the diagonal loop of ChessGame.getPawnMoves (dc is -1 or
1): in attack-only mode the diagonal is pushed unconditionally; otherwise a
capture requires an enemy occupant, and landing on the en-passant target
pushes the en passant capture. -/
def pawnDiag (b : Board) (ep : Option Sq) (row col : Int) (p : Piece)
    (attackOnly : Bool) (dc : Int) : List MoveInfo :=
  let newRow := row + pawnDir p
  let newCol := col + dc
  if 0 ≤ newRow ∧ newRow ≤ 7 ∧ 0 ≤ newCol ∧ newCol ≤ 7 then
    (if attackOnly then [({ row := newRow, col := newCol } : MoveInfo)]
     else
       match getPiece b newRow newCol with
       | some target =>
         if target.color ≠ p.color then
           [{ row := newRow, col := newCol, capture := true,
              promotion := decide (newRow = promotionRowOf p) }]
         else []
       | none => []) ++
    (if attackOnly = false ∧ ep = some ⟨newRow, newCol⟩ then
       [{ row := newRow, col := newCol, enPassant := true, capture := true }]
     else [])
  else []

/-- Method ChessGame.getPawnMoves.  The moves array parameter of the source
becomes the returned list; pushes happen in source order (forward moves,
then for dc in [-1, 1] the capture/attack push followed by the en passant
push).  The ep parameter is this.enPassantTarget. -/
def getPawnMoves (b : Board) (ep : Option Sq) (row col : Int) (p : Piece)
    (attackOnly : Bool) : List MoveInfo :=
  (if attackOnly then [] else pawnForward b row col p) ++
    pawnDiag b ep row col p attackOnly (-1) ++ pawnDiag b ep row col p attackOnly 1

/-- One ray of ChessGame.getSlidingMoves: the while loop stepping by
(dr, dc) from (r, c) until leaving the board or hitting a piece.  A ray from
an in-board start visits at most 8 in-board cells, so fuel 8 reproduces the
loop exactly. -/
def slideRay (b : Board) (pc : Color) (dr dc : Int) : Int → Int → Nat → List MoveInfo
  | _, _, 0 => []
  | r, c, fuel + 1 =>
    if 0 ≤ r ∧ r ≤ 7 ∧ 0 ≤ c ∧ c ≤ 7 then
      match getPiece b r c with
      | none => ({ row := r, col := c } : MoveInfo) :: slideRay b pc dr dc (r + dr) (c + dc) fuel
      | some target =>
        if target.color ≠ pc then [{ row := r, col := c, capture := true }] else []
    else []

/-- Method ChessGame.getSlidingMoves over a direction list. -/
def getSlidingMoves (b : Board) (row col : Int) (p : Piece)
    (directions : List (Int × Int)) : List MoveInfo :=
  directions.flatMap fun d => slideRay b p.color d.1 d.2 (row + d.1) (col + d.2) 8

/-- Shared body of ChessGame.getKnightMoves and the offset part of
ChessGame.getKingMoves (the two methods repeat the same loop over an offset
table). -/
def offsetMoves (b : Board) (row col : Int) (p : Piece)
    (offsets : List (Int × Int)) : List MoveInfo :=
  offsets.filterMap fun d =>
    let r := row + d.1
    let c := col + d.2
    if 0 ≤ r ∧ r ≤ 7 ∧ 0 ≤ c ∧ c ≤ 7 then
      match getPiece b r c with
      | none => some { row := r, col := c, capture := false }
      | some target =>
        if target.color ≠ p.color then some { row := r, col := c, capture := true } else none
    else none

/-- Offset table of ChessGame.getKnightMoves. -/
def knightOffsets : List (Int × Int) :=
  [(-2, -1), (-2, 1), (-1, -2), (-1, 2), (1, -2), (1, 2), (2, -1), (2, 1)]

/-- Offset table of ChessGame.getKingMoves. -/
def kingOffsets : List (Int × Int) :=
  [(-1, -1), (-1, 0), (-1, 1), (0, -1), (0, 1), (1, -1), (1, 0), (1, 1)]

/-- Method ChessGame.getKnightMoves. -/
def getKnightMoves (b : Board) (row col : Int) (p : Piece) : List MoveInfo :=
  offsetMoves b row col p knightOffsets

/-- Direction table for rooks (also the first four queen directions). -/
def rookDirections : List (Int × Int) := [(0, 1), (0, -1), (1, 0), (-1, 0)]

/-- Direction table for bishops (also the last four queen directions). -/
def bishopDirections : List (Int × Int) := [(1, 1), (1, -1), (-1, 1), (-1, -1)]

/-- Method ChessGame.getRawMoves restricted to attackOnly = true: the pawn
generator skips forward moves and en passant and pushes the plain diagonals,
and the king generator skips the castling block, so this level does not
recurse through check detection. -/
def getRawAttackMoves (b : Board) (ep : Option Sq) (row col : Int) (p : Piece) :
    List MoveInfo :=
  match p.type with
  | PieceType.pawn => getPawnMoves b ep row col p true
  | PieceType.rook => getSlidingMoves b row col p rookDirections
  | PieceType.knight => getKnightMoves b row col p
  | PieceType.bishop => getSlidingMoves b row col p bishopDirections
  | PieceType.queen => getSlidingMoves b row col p (rookDirections ++ bishopDirections)
  | PieceType.king => offsetMoves b row col p kingOffsets

/-- Method ChessGame.isSquareAttacked: scan all cells in row-major order for
pieces of byColor whose attack-only raw moves land on (row, col). -/
def isSquareAttacked (b : Board) (ep : Option Sq) (row col : Int) (byColor : Color) : Bool :=
  (List.range 8).any fun r =>
    (List.range 8).any fun c =>
      match getPiece b (r : Int) (c : Int) with
      | some p =>
        p.color == byColor &&
          (getRawAttackMoves b ep (r : Int) (c : Int) p).any fun m =>
            m.row == row && m.col == col
      | none => false

/-- Method ChessGame.findKing: first cell in row-major order holding a king
of the given color. -/
def findKing (b : Board) (color : Color) : Option Sq :=
  (List.range 8).findSome? fun r =>
    (List.range 8).findSome? fun c =>
      match getPiece b (r : Int) (c : Int) with
      | some p =>
        if p.type = PieceType.king ∧ p.color = color then some ⟨(r : Int), (c : Int)⟩ else none
      | none => none

/-- Method ChessGame.isInCheck (parameterised by board and en-passant target
instead of this). -/
def isInCheck (b : Board) (ep : Option Sq) (color : Color) : Bool :=
  match findKing b color with
  | none => false
  | some kingPos => isSquareAttacked b ep kingPos.row kingPos.col color.opposite

/-- Method ChessGame.getCastlingMoves: kingside block then queenside block. -/
def getCastlingMoves (b : Board) (ep : Option Sq) (row col : Int) (p : Piece) :
    List MoveInfo :=
  let opponentColor := p.color.opposite
  let kingside : List MoveInfo :=
    match getPiece b row 7 with
    | some rk =>
      if rk.type = PieceType.rook ∧ rk.hasMoved = false ∧
          getPiece b row 5 = none ∧ getPiece b row 6 = none ∧
          isSquareAttacked b ep row 5 opponentColor = false ∧
          isSquareAttacked b ep row 6 opponentColor = false then
        [{ row := row, col := 6, castling := some CastleSide.kingside }]
      else []
    | none => []
  let queenside : List MoveInfo :=
    match getPiece b row 0 with
    | some rk =>
      if rk.type = PieceType.rook ∧ rk.hasMoved = false ∧
          getPiece b row 1 = none ∧ getPiece b row 2 = none ∧ getPiece b row 3 = none ∧
          isSquareAttacked b ep row 2 opponentColor = false ∧
          isSquareAttacked b ep row 3 opponentColor = false then
        [{ row := row, col := 2, castling := some CastleSide.queenside }]
      else []
    | none => []
  kingside ++ queenside

/-- Method ChessGame.getKingMoves with attackOnly = false: offset moves plus
the castling block guarded by not-yet-moved and not-in-check. -/
def getKingMoves (b : Board) (ep : Option Sq) (row col : Int) (p : Piece) :
    List MoveInfo :=
  offsetMoves b row col p kingOffsets ++
    (if p.hasMoved = false ∧ isInCheck b ep p.color = false then
      getCastlingMoves b ep row col p
    else [])

/-- Method ChessGame.getRawMoves with attackOnly = false. -/
def getRawMoves (b : Board) (ep : Option Sq) (row col : Int) (p : Piece) :
    List MoveInfo :=
  match p.type with
  | PieceType.pawn => getPawnMoves b ep row col p false
  | PieceType.rook => getSlidingMoves b row col p rookDirections
  | PieceType.knight => getKnightMoves b row col p
  | PieceType.bishop => getSlidingMoves b row col p bishopDirections
  | PieceType.queen => getSlidingMoves b row col p (rookDirections ++ bishopDirections)
  | PieceType.king => getKingMoves b ep row col p

/-- Method ChessGame.simulateMove: board effect of a move used for
legality checking (en passant removal, castling rook relocation, then the
piece move).  The source reads the moving piece unconditionally and is only
invoked with an occupied from-square; an empty from-square leaves the board
unchanged here. -/
def simulateMove (b : Board) (fromRow fromCol toRow toCol : Int) (mi : MoveInfo) :
    Board :=
  match getPiece b fromRow fromCol with
  | none => b
  | some piece =>
    let b1 :=
      if mi.enPassant then
        setPiece b (if piece.color = Color.white then toRow + 1 else toRow - 1) toCol none
      else b
    let b2 :=
      match mi.castling with
      | some CastleSide.kingside =>
        setPiece (setPiece b1 fromRow 7 none) fromRow 5 (getPiece b1 fromRow 7)
      | some CastleSide.queenside =>
        setPiece (setPiece b1 fromRow 0 none) fromRow 3 (getPiece b1 fromRow 0)
      | none => b1
    setPiece (setPiece b2 toRow toCol (some piece)) fromRow fromCol none

/-- Method ChessGame.getValidMoves parameterised by board, en-passant target
and current turn: raw moves filtered by simulating each move on a copy of the
board and rejecting those that leave the mover's king in check.  The source
restores this.board and this.enPassantTarget from snapshots after each
simulation, so the call has no net state effect; the during-simulation check
runs with the original en-passant target, as here. -/
def getValidMovesB (b : Board) (ep : Option Sq) (turn : Color) (row col : Int) :
    List MoveInfo :=
  match getPiece b row col with
  | none => []
  | some piece =>
    if piece.color ≠ turn then []
    else
      (getRawMoves b ep row col piece).filter fun m =>
        isInCheck (simulateMove b row col m.row m.col m) ep piece.color = false

/-- The winner field of ChessGame: null, a color string, or the string
draw. -/
inductive Winner where
  | white
  | black
  | draw
deriving DecidableEq, Repr

/-- Winner value written by checkGameState for a checkmated opponent. -/
def winnerOfColor : Color → Winner
  | Color.white => Winner.white
  | Color.black => Winner.black

/-- A history entry as built by ChessGame.makeMove (the move object pushed to
this.moveHistory). -/
structure MoveRecord where
  fromSq : Sq
  toSq : Sq
  piece : Piece
  captured : Option Piece
  castling : Option CastleSide
  enPassant : Bool
  promotion : Bool
  promotionPiece : Option PieceType
  previousEnPassant : Option Sq
deriving DecidableEq, Repr

/-- The mutable fields of ChessGame (this.selectedPiece is UI bookkeeping
read by no engine method and is omitted).  capturedWhite / capturedBlack are
this.capturedPieces.white / .black (pieces captured by that color), stored
newest-first.  moveHistory is stored newest-first, so a JS push is a cons
and a JS pop takes the head. -/
structure GameState where
  board : Board
  currentTurn : Color
  validMoves : List MoveInfo
  moveHistory : List MoveRecord
  capturedWhite : List Piece
  capturedBlack : List Piece
  enPassantTarget : Option Sq
  gameOver : Bool
  winner : Option Winner
  isCheck : Bool
  lastMove : Option (Sq × Sq)
deriving DecidableEq

/-- Method ChessGame.reset: the state built by the constructor. -/
def resetState : GameState :=
  { board := getInitialBoard
    currentTurn := Color.white
    validMoves := []
    moveHistory := []
    capturedWhite := []
    capturedBlack := []
    enPassantTarget := none
    gameOver := false
    winner := none
    isCheck := false
    lastMove := none }

/-- Method ChessGame.getValidMoves on a game state. -/
def getValidMoves (g : GameState) (row col : Int) : List MoveInfo :=
  getValidMovesB g.board g.enPassantTarget g.currentTurn row col

/-- Method ChessUI.selectPiece, engine-visible part: store the legal moves
of the selected square in this.game.validMoves. -/
def selectPiece (g : GameState) (row col : Int) : GameState :=
  { g with validMoves := getValidMoves g row col }

/-- The labelled search loop of ChessGame.checkGameState: does the side to
move own any piece with a nonempty valid-move list (the early break makes
the loop an existence test over cells in row-major order)? -/
def hasAnyValidMove (g : GameState) : Bool :=
  (List.range 8).any fun row =>
    (List.range 8).any fun col =>
      match getPiece g.board (row : Int) (col : Int) with
      | some p =>
        p.color == g.currentTurn &&
          (getValidMovesB g.board g.enPassantTarget g.currentTurn (row : Int) (col : Int)) ≠ []
      | none => false

/-- Method ChessGame.checkGameState: recompute isCheck for the side to move,
then, when that side has no valid move at all, set gameOver and the winner
(checkmate or stalemate). -/
def checkGameState (g : GameState) : GameState :=
  let isChk := isInCheck g.board g.enPassantTarget g.currentTurn
  if hasAnyValidMove g then { g with isCheck := isChk }
  else
    { g with
      isCheck := isChk
      gameOver := true
      winner :=
        some (if isChk then winnerOfColor g.currentTurn.opposite else Winner.draw) }

/-- The capturedRow computed in makeMove and undoMove for en passant: the
square behind the destination from the mover's point of view. -/
def epCapRow (piece : Piece) (toRow : Int) : Int :=
  if piece.color = Color.white then toRow + 1 else toRow - 1

/-- The capture resolved by makeMove: the occupant of the destination, or of
the en-passant capture square for an en passant move. -/
def capturedOf (g : GameState) (toRow toCol : Int) (piece : Piece) (mi : MoveInfo) :
    Option Piece :=
  if mi.enPassant then getPiece g.board (epCapRow piece toRow) toCol
  else getPiece g.board toRow toCol

/-- The history entry built by makeMove. -/
def recordOf (g : GameState) (fromRow fromCol toRow toCol : Int) (piece : Piece)
    (mi : MoveInfo) (promotionPiece : Option PieceType) : MoveRecord :=
  { fromSq := ⟨fromRow, fromCol⟩
    toSq := ⟨toRow, toCol⟩
    piece := piece
    captured := capturedOf g toRow toCol piece mi
    castling := mi.castling
    enPassant := mi.enPassant
    promotion := mi.promotion
    promotionPiece := promotionPiece
    previousEnPassant := g.enPassantTarget }

/-- The board transformation of makeMove: en passant removal, castling rook
relocation (marking the rook moved), the piece move (marking it moved), and
the promotion replacement when a choice was supplied. -/
def makeMoveBoard (b : Board) (fromRow fromCol toRow toCol : Int) (piece : Piece)
    (mi : MoveInfo) (promotionPiece : Option PieceType) : Board :=
  let b1 :=
    if mi.enPassant then setPiece b (epCapRow piece toRow) toCol none else b
  let b2 :=
    match mi.castling with
    | some CastleSide.kingside =>
      setPiece (setPiece b1 fromRow 7 none) fromRow 5
        ((getPiece b1 fromRow 7).map fun rk => { rk with hasMoved := true })
    | some CastleSide.queenside =>
      setPiece (setPiece b1 fromRow 0 none) fromRow 3
        ((getPiece b1 fromRow 0).map fun rk => { rk with hasMoved := true })
    | none => b1
  let b3 :=
    setPiece (setPiece b2 toRow toCol (some { piece with hasMoved := true }))
      fromRow fromCol none
  match mi.promotion, promotionPiece with
  | true, some pt =>
    setPiece b3 toRow toCol (some { createPiece pt piece.color with hasMoved := true })
  | _, _ => b3

/-- The state written by makeMove before checkGameState runs. -/
def makeMoveState (g : GameState) (fromRow fromCol toRow toCol : Int) (piece : Piece)
    (mi : MoveInfo) (promotionPiece : Option PieceType) : GameState :=
  let capturedPiece := capturedOf g toRow toCol piece mi
  { g with
    board := makeMoveBoard g.board fromRow fromCol toRow toCol piece mi promotionPiece
    capturedWhite :=
      if capturedPiece.isSome ∧ piece.color = Color.white then
        capturedPiece.toList ++ g.capturedWhite
      else g.capturedWhite
    capturedBlack :=
      if capturedPiece.isSome ∧ piece.color = Color.black then
        capturedPiece.toList ++ g.capturedBlack
      else g.capturedBlack
    enPassantTarget :=
      if mi.twoStep then
        some ⟨if piece.color = Color.white then toRow + 1 else toRow - 1, toCol⟩
      else none
    lastMove := some (⟨fromRow, fromCol⟩, ⟨toRow, toCol⟩)
    moveHistory := recordOf g fromRow fromCol toRow toCol piece mi promotionPiece :: g.moveHistory
    currentTurn := g.currentTurn.opposite }

/-- Method ChessGame.makeMove.  Fails (false, unchanged state) when the
from-square is empty or when this.validMoves (the list last computed by
ChessUI.selectPiece) holds no entry with the destination coordinates;
otherwise applies the found move.  The source dereferences the castling rook
unconditionally (a missing rook would throw); that branch keeps the cell
empty here and is unreachable whenever validMoves was computed for the
from-square. -/
def makeMove (g : GameState) (fromRow fromCol toRow toCol : Int)
    (promotionPiece : Option PieceType) : Bool × GameState :=
  match getPiece g.board fromRow fromCol with
  | none => (false, g)
  | some piece =>
    match g.validMoves.find? fun m => m.row == toRow && m.col == toCol with
    | none => (false, g)
    | some mi =>
      (true, checkGameState (makeMoveState g fromRow fromCol toRow toCol piece mi promotionPiece))

/-- The piece put back on the from-square by undoMove: a fresh pawn when a
promotion with a supplied choice is reverted, otherwise a copy of the
recorded piece; in both cases with the recorded hasMoved flag. -/
def undoPiece (record : MoveRecord) : Piece :=
  if record.promotion ∧ record.promotionPiece.isSome then
    { createPiece PieceType.pawn record.piece.color with hasMoved := record.piece.hasMoved }
  else
    { record.piece with hasMoved := record.piece.hasMoved }

/-- The board transformation of undoMove: piece back to the from-square,
destination cleared, captured piece restored (at the en passant offset when
needed), castling rook moved back (clearing its hasMoved flag). -/
def undoBoard (b : Board) (record : MoveRecord) : Board :=
  let piece := undoPiece record
  let b1 :=
    setPiece (setPiece b record.fromSq.row record.fromSq.col (some piece))
      record.toSq.row record.toSq.col none
  let b2 :=
    match record.captured with
    | some cap =>
      if record.enPassant then
        setPiece b1 (epCapRow piece record.toSq.row) record.toSq.col (some cap)
      else setPiece b1 record.toSq.row record.toSq.col (some cap)
    | none => b1
  match record.castling with
  | some CastleSide.kingside =>
    setPiece (setPiece b2 record.fromSq.row 5 none) record.fromSq.row 7
      ((getPiece b2 record.fromSq.row 5).map fun rk => { rk with hasMoved := false })
  | some CastleSide.queenside =>
    setPiece (setPiece b2 record.fromSq.row 3 none) record.fromSq.row 0
      ((getPiece b2 record.fromSq.row 3).map fun rk => { rk with hasMoved := false })
  | none => b2

/-- Method ChessGame.undoMove: pop the last history entry and reverse every
recorded field; fails on empty history. -/
def undoMove (g : GameState) : Bool × GameState :=
  match g.moveHistory with
  | [] => (false, g)
  | record :: rest =>
    let piece := undoPiece record
    let b3 := undoBoard g.board record
    let turn := g.currentTurn.opposite
    (true,
      { g with
        board := b3
        moveHistory := rest
        capturedWhite :=
          if record.captured.isSome ∧ piece.color = Color.white then g.capturedWhite.tail
          else g.capturedWhite
        capturedBlack :=
          if record.captured.isSome ∧ piece.color = Color.black then g.capturedBlack.tail
          else g.capturedBlack
        enPassantTarget := record.previousEnPassant
        currentTurn := turn
        gameOver := false
        winner := none
        isCheck := isInCheck b3 record.previousEnPassant turn
        lastMove :=
          match rest with
          | r2 :: _ => some (r2.fromSq, r2.toSq)
          | [] => none })

/-- An entry of the list returned by ChessGame.getAllValidMoves. -/
structure FullMove where
  fromSq : Sq
  toInfo : MoveInfo
  piece : Piece
deriving DecidableEq, Repr

/-- Method ChessGame.getAllValidMoves: every valid move of every piece of a
color, in row-major cell order. -/
def getAllValidMoves (g : GameState) (color : Color) : List FullMove :=
  (List.range 8).flatMap fun row =>
    (List.range 8).flatMap fun col =>
      match getPiece g.board (row : Int) (col : Int) with
      | some p =>
        if p.color = color then
          (getValidMoves g (row : Int) (col : Int)).map fun m =>
            { fromSq := ⟨(row : Int), (col : Int)⟩, toInfo := m, piece := p }
        else []
      | none => []

/-- The PIECE_VALUES constant of chess-pieces.js. -/
def pieceValue : PieceType → Int
  | PieceType.king => 10000
  | PieceType.queen => 900
  | PieceType.rook => 500
  | PieceType.bishop => 330
  | PieceType.knight => 320
  | PieceType.pawn => 100

/-- The POSITION_BONUS tables of chess-pieces.js (per piece kind and color,
row-major 8 x 8). -/
def positionBonus : PieceType → Color → List (List Int)
  | PieceType.pawn, Color.white =>
    [[0, 0, 0, 0, 0, 0, 0, 0],
     [50, 50, 50, 50, 50, 50, 50, 50],
     [10, 10, 20, 30, 30, 20, 10, 10],
     [5, 5, 10, 25, 25, 10, 5, 5],
     [0, 0, 0, 20, 20, 0, 0, 0],
     [5, -5, -10, 0, 0, -10, -5, 5],
     [5, 10, 10, -20, -20, 10, 10, 5],
     [0, 0, 0, 0, 0, 0, 0, 0]]
  | PieceType.pawn, Color.black =>
    [[0, 0, 0, 0, 0, 0, 0, 0],
     [5, 10, 10, -20, -20, 10, 10, 5],
     [5, -5, -10, 0, 0, -10, -5, 5],
     [0, 0, 0, 20, 20, 0, 0, 0],
     [5, 5, 10, 25, 25, 10, 5, 5],
     [10, 10, 20, 30, 30, 20, 10, 10],
     [50, 50, 50, 50, 50, 50, 50, 50],
     [0, 0, 0, 0, 0, 0, 0, 0]]
  | PieceType.knight, Color.white =>
    [[-50, -40, -30, -30, -30, -30, -40, -50],
     [-40, -20, 0, 0, 0, 0, -20, -40],
     [-30, 0, 10, 15, 15, 10, 0, -30],
     [-30, 5, 15, 20, 20, 15, 5, -30],
     [-30, 0, 15, 20, 20, 15, 0, -30],
     [-30, 5, 10, 15, 15, 10, 5, -30],
     [-40, -20, 0, 5, 5, 0, -20, -40],
     [-50, -40, -30, -30, -30, -30, -40, -50]]
  | PieceType.knight, Color.black =>
    [[-50, -40, -30, -30, -30, -30, -40, -50],
     [-40, -20, 0, 5, 5, 0, -20, -40],
     [-30, 5, 10, 15, 15, 10, 5, -30],
     [-30, 0, 15, 20, 20, 15, 0, -30],
     [-30, 5, 15, 20, 20, 15, 5, -30],
     [-30, 0, 10, 15, 15, 10, 0, -30],
     [-40, -20, 0, 0, 0, 0, -20, -40],
     [-50, -40, -30, -30, -30, -30, -40, -50]]
  | PieceType.bishop, Color.white =>
    [[-20, -10, -10, -10, -10, -10, -10, -20],
     [-10, 0, 0, 0, 0, 0, 0, -10],
     [-10, 0, 5, 10, 10, 5, 0, -10],
     [-10, 5, 5, 10, 10, 5, 5, -10],
     [-10, 0, 10, 10, 10, 10, 0, -10],
     [-10, 10, 10, 10, 10, 10, 10, -10],
     [-10, 5, 0, 0, 0, 0, 5, -10],
     [-20, -10, -10, -10, -10, -10, -10, -20]]
  | PieceType.bishop, Color.black =>
    [[-20, -10, -10, -10, -10, -10, -10, -20],
     [-10, 5, 0, 0, 0, 0, 5, -10],
     [-10, 10, 10, 10, 10, 10, 10, -10],
     [-10, 0, 10, 10, 10, 10, 0, -10],
     [-10, 5, 5, 10, 10, 5, 5, -10],
     [-10, 0, 5, 10, 10, 5, 0, -10],
     [-10, 0, 0, 0, 0, 0, 0, -10],
     [-20, -10, -10, -10, -10, -10, -10, -20]]
  | PieceType.rook, Color.white =>
    [[0, 0, 0, 0, 0, 0, 0, 0],
     [5, 10, 10, 10, 10, 10, 10, 5],
     [-5, 0, 0, 0, 0, 0, 0, -5],
     [-5, 0, 0, 0, 0, 0, 0, -5],
     [-5, 0, 0, 0, 0, 0, 0, -5],
     [-5, 0, 0, 0, 0, 0, 0, -5],
     [-5, 0, 0, 0, 0, 0, 0, -5],
     [0, 0, 0, 5, 5, 0, 0, 0]]
  | PieceType.rook, Color.black =>
    [[0, 0, 0, 5, 5, 0, 0, 0],
     [-5, 0, 0, 0, 0, 0, 0, -5],
     [-5, 0, 0, 0, 0, 0, 0, -5],
     [-5, 0, 0, 0, 0, 0, 0, -5],
     [-5, 0, 0, 0, 0, 0, 0, -5],
     [-5, 0, 0, 0, 0, 0, 0, -5],
     [5, 10, 10, 10, 10, 10, 10, 5],
     [0, 0, 0, 0, 0, 0, 0, 0]]
  | PieceType.queen, Color.white =>
    [[-20, -10, -10, -5, -5, -10, -10, -20],
     [-10, 0, 0, 0, 0, 0, 0, -10],
     [-10, 0, 5, 5, 5, 5, 0, -10],
     [-5, 0, 5, 5, 5, 5, 0, -5],
     [0, 0, 5, 5, 5, 5, 0, -5],
     [-10, 5, 5, 5, 5, 5, 0, -10],
     [-10, 0, 5, 0, 0, 0, 0, -10],
     [-20, -10, -10, -5, -5, -10, -10, -20]]
  | PieceType.queen, Color.black =>
    [[-20, -10, -10, -5, -5, -10, -10, -20],
     [-10, 0, 5, 0, 0, 0, 0, -10],
     [-10, 5, 5, 5, 5, 5, 0, -10],
     [0, 0, 5, 5, 5, 5, 0, -5],
     [-5, 0, 5, 5, 5, 5, 0, -5],
     [-10, 0, 5, 5, 5, 5, 0, -10],
     [-10, 0, 0, 0, 0, 0, 0, -10],
     [-20, -10, -10, -5, -5, -10, -10, -20]]
  | PieceType.king, Color.white =>
    [[-30, -40, -40, -50, -50, -40, -40, -30],
     [-30, -40, -40, -50, -50, -40, -40, -30],
     [-30, -40, -40, -50, -50, -40, -40, -30],
     [-30, -40, -40, -50, -50, -40, -40, -30],
     [-20, -30, -30, -40, -40, -30, -30, -20],
     [-10, -20, -20, -20, -20, -20, -20, -10],
     [20, 20, 0, 0, 0, 0, 20, 20],
     [20, 30, 10, 0, 0, 10, 30, 20]]
  | PieceType.king, Color.black =>
    [[20, 30, 10, 0, 0, 10, 30, 20],
     [20, 20, 0, 0, 0, 0, 20, 20],
     [-10, -20, -20, -20, -20, -20, -20, -10],
     [-20, -30, -30, -40, -40, -30, -30, -20],
     [-30, -40, -40, -50, -50, -40, -40, -30],
     [-30, -40, -40, -50, -50, -40, -40, -30],
     [-30, -40, -40, -50, -50, -40, -40, -30],
     [-30, -40, -40, -50, -50, -40, -40, -30]]

/-- The difficulty levels accepted by ChessAI.setDifficulty. -/
inductive Difficulty where
  | easy
  | medium
  | hard
deriving DecidableEq, Repr

/-- The search configuration held by a ChessAI instance: this.maxDepth and
this.randomFactor. -/
structure AIConfig where
  maxDepth : Nat
  randomFactor : Rat
deriving DecidableEq, Repr

/-- Method ChessAI.setDifficulty (the default case of the switch matches
medium). -/
def setDifficulty : Difficulty → AIConfig
  | Difficulty.easy => { maxDepth := 2, randomFactor := 3 / 10 }
  | Difficulty.medium => { maxDepth := 3, randomFactor := 1 / 10 }
  | Difficulty.hard => { maxDepth := 4, randomFactor := 0 }

/-- Extended scores: JS number scores are integers here (all evaluation terms
are integers), extended with the Infinity / -Infinity sentinels used for
alpha, beta and the running best scores. -/
inductive EInt where
  | negInf
  | fin (z : Int)
  | posInf
deriving DecidableEq, Repr

/-- Comparison on extended scores (JS <=). -/
def EInt.le : EInt → EInt → Bool
  | EInt.negInf, _ => true
  | _, EInt.posInf => true
  | EInt.fin a, EInt.fin b => a ≤ b
  | _, _ => false

/-- Comparison on extended scores (JS strict <). -/
def EInt.lt : EInt → EInt → Bool
  | _, EInt.negInf => false
  | EInt.negInf, _ => true
  | EInt.fin a, EInt.fin b => a < b
  | EInt.fin _, EInt.posInf => true
  | EInt.posInf, _ => false

/-- JS Math.max on extended scores. -/
def EInt.max (a b : EInt) : EInt := if EInt.le a b then b else a

/-- JS Math.min on extended scores. -/
def EInt.min (a b : EInt) : EInt := if EInt.le a b then a else b

/-- Method ChessAI.makeSimulatedMove: board-only application of a move for
search (no hasMoved updates; promotion always creates a queen with the fresh
hasMoved = false of createPiece); also updates the en-passant target. -/
def makeSimulatedMove (g : GameState) (mv : FullMove) : GameState :=
  match getPiece g.board mv.fromSq.row mv.fromSq.col with
  | none => g
  | some piece =>
    let b1 :=
      if mv.toInfo.enPassant then
        setPiece g.board
          (if piece.color = Color.white then mv.toInfo.row + 1 else mv.toInfo.row - 1)
          mv.toInfo.col none
      else g.board
    let b2 :=
      match mv.toInfo.castling with
      | some CastleSide.kingside =>
        setPiece (setPiece b1 mv.fromSq.row 7 none) mv.fromSq.row 5 (getPiece b1 mv.fromSq.row 7)
      | some CastleSide.queenside =>
        setPiece (setPiece b1 mv.fromSq.row 0 none) mv.fromSq.row 3 (getPiece b1 mv.fromSq.row 0)
      | none => b1
    let b3 :=
      setPiece (setPiece b2 mv.toInfo.row mv.toInfo.col (some piece))
        mv.fromSq.row mv.fromSq.col none
    let b4 :=
      if mv.toInfo.promotion then
        setPiece b3 mv.toInfo.row mv.toInfo.col (some (createPiece PieceType.queen piece.color))
      else b3
    let newEp : Option Sq :=
      if mv.toInfo.twoStep then
        some ⟨if piece.color = Color.white then mv.toInfo.row + 1 else mv.toInfo.row - 1,
              mv.toInfo.col⟩
      else none
    { g with board := b4, enPassantTarget := newEp }

/-- Method ChessAI.isSquareAttackedForMinimax: piece-centric attack scan
(pawn squares, knight offsets, king offsets, then sliding rays typed rook /
queen and bishop / queen). -/
def isSquareAttackedForMinimax (g : GameState) (row col : Int) (byColor : Color) : Bool :=
  let pawnDir : Int := if byColor = Color.white then 1 else -1
  let pawnHit :=
    [(-1 : Int), 1].any fun dc =>
      match getPiece g.board (row + pawnDir) (col + dc) with
      | some p => p.type == PieceType.pawn && p.color == byColor
      | none => false
  let knightHit :=
    knightOffsets.any fun d =>
      match getPiece g.board (row + d.1) (col + d.2) with
      | some p => p.type == PieceType.knight && p.color == byColor
      | none => false
  let kingHit :=
    kingOffsets.any fun d =>
      match getPiece g.board (row + d.1) (col + d.2) with
      | some p => p.type == PieceType.king && p.color == byColor
      | none => false
  let ray : Int → Int → Int → Int → Nat → List PieceType → Bool := fun dr dc =>
    let rec go : Int → Int → Nat → List PieceType → Bool := fun r c fuel types =>
      match fuel with
      | 0 => false
      | fuel + 1 =>
        if 0 ≤ r ∧ r ≤ 7 ∧ 0 ≤ c ∧ c ≤ 7 then
          match getPiece g.board r c with
          | some p => p.color == byColor && types.contains p.type
          | none => go (r + dr) (c + dc) fuel types
        else false
    go
  let slideHit :=
    (rookDirections.any fun d =>
      ray d.1 d.2 (row + d.1) (col + d.2) 8 [PieceType.rook, PieceType.queen]) ||
    (bishopDirections.any fun d =>
      ray d.1 d.2 (row + d.1) (col + d.2) 8 [PieceType.bishop, PieceType.queen])
  pawnHit || knightHit || kingHit || slideHit

/-- Method ChessAI.isKingInCheck: locate the first king of the color in
row-major order (the nested loop with breaks), then test attack. -/
def isKingInCheckMini (g : GameState) (color : Color) : Bool :=
  let kingPos :=
    (List.range 8).findSome? fun r =>
      (List.range 8).findSome? fun c =>
        match getPiece g.board (r : Int) (c : Int) with
        | some p =>
          if p.type = PieceType.king ∧ p.color = color then some ((r : Int), (c : Int))
          else none
        | none => none
  match kingPos with
  | none => false
  | some (kr, kc) => isSquareAttackedForMinimax g kr kc color.opposite

/-- Method ChessAI.getPawnMovesForMinimax: like the engine pawn generator
with attackOnly = false, except the en-passant push is not guarded by an
attackOnly test (none exists here). -/
def getPawnMovesForMinimax (g : GameState) (row col : Int) (p : Piece) : List MoveInfo :=
  let direction : Int := if p.color = Color.white then -1 else 1
  let startRow : Int := if p.color = Color.white then 6 else 1
  let promotionRow : Int := if p.color = Color.white then 0 else 7
  let forward : List MoveInfo :=
    let oneStep := row + direction
    if 0 ≤ oneStep ∧ oneStep ≤ 7 ∧ getPiece g.board oneStep col = none then
      ({ row := oneStep, col := col, promotion := decide (oneStep = promotionRow) } : MoveInfo) ::
        (if row = startRow ∧ getPiece g.board (row + 2 * direction) col = none then
          [{ row := row + 2 * direction, col := col, twoStep := true }]
        else [])
    else []
  let diag : Int → List MoveInfo := fun dc =>
    let newRow := row + direction
    let newCol := col + dc
    if 0 ≤ newRow ∧ newRow ≤ 7 ∧ 0 ≤ newCol ∧ newCol ≤ 7 then
      (match getPiece g.board newRow newCol with
       | some target =>
         if target.color ≠ p.color then
           [{ row := newRow, col := newCol, capture := true,
              promotion := decide (newRow = promotionRow) }]
         else []
       | none => []) ++
      (if g.enPassantTarget = some ⟨newRow, newCol⟩ then
        [{ row := newRow, col := newCol, enPassant := true, capture := true }]
      else [])
    else []
  forward ++ diag (-1) ++ diag 1

/-- Method ChessAI.getKingMovesForMinimax: offsets plus castling, using the
minimax attack test for the crossed squares. -/
def getKingMovesForMinimax (g : GameState) (row col : Int) (p : Piece) : List MoveInfo :=
  let basic := offsetMoves g.board row col p kingOffsets
  let castles :=
    if p.hasMoved = false ∧ isKingInCheckMini g p.color = false then
      let opponentColor := p.color.opposite
      let kingside : List MoveInfo :=
        match getPiece g.board row 7 with
        | some rk =>
          if rk.type = PieceType.rook ∧ rk.hasMoved = false ∧
              getPiece g.board row 5 = none ∧ getPiece g.board row 6 = none ∧
              isSquareAttackedForMinimax g row 5 opponentColor = false ∧
              isSquareAttackedForMinimax g row 6 opponentColor = false then
            [{ row := row, col := 6, castling := some CastleSide.kingside }]
          else []
        | none => []
      let queenside : List MoveInfo :=
        match getPiece g.board row 0 with
        | some rk =>
          if rk.type = PieceType.rook ∧ rk.hasMoved = false ∧
              getPiece g.board row 1 = none ∧ getPiece g.board row 2 = none ∧
              getPiece g.board row 3 = none ∧
              isSquareAttackedForMinimax g row 2 opponentColor = false ∧
              isSquareAttackedForMinimax g row 3 opponentColor = false then
            [{ row := row, col := 2, castling := some CastleSide.queenside }]
          else []
        | none => []
      kingside ++ queenside
    else []
  basic ++ castles

/-- Method ChessAI.getRawMovesForMinimax (the sliding and knight loops repeat
the engine loops verbatim and reuse those definitions). -/
def getRawMovesForMinimax (g : GameState) (row col : Int) (p : Piece) : List MoveInfo :=
  match p.type with
  | PieceType.pawn => getPawnMovesForMinimax g row col p
  | PieceType.rook => getSlidingMoves g.board row col p rookDirections
  | PieceType.knight => getKnightMoves g.board row col p
  | PieceType.bishop => getSlidingMoves g.board row col p bishopDirections
  | PieceType.queen => getSlidingMoves g.board row col p (rookDirections ++ bishopDirections)
  | PieceType.king => getKingMovesForMinimax g row col p

/-- Board produced by the speculative application inside
ChessAI.getValidMovesForMinimax (en passant removal, castling rook slide,
piece move; no promotion and no hasMoved updates). -/
def miniSimBoard (g : GameState) (row col : Int) (p : Piece) (m : MoveInfo) : Board :=
  let b0 := g.board
  let b1 :=
    if m.enPassant then
      setPiece b0 (if p.color = Color.white then m.row + 1 else m.row - 1) m.col none
    else b0
  let b2 :=
    match m.castling with
    | some CastleSide.kingside =>
      setPiece (setPiece b1 row 7 none) row 5 (getPiece b1 row 7)
    | some CastleSide.queenside =>
      setPiece (setPiece b1 row 0 none) row 3 (getPiece b1 row 0)
    | none => b1
  setPiece (setPiece b2 m.row m.col (some p)) row col none

/-- Method ChessAI.getValidMovesForMinimax: raw moves filtered by the
own-king-safety test on the speculative board; the source restores
game.board from a snapshot afterwards, so there is no net state effect. -/
def getValidMovesForMinimax (g : GameState) (row col : Int) (p : Piece) : List MoveInfo :=
  (getRawMovesForMinimax g row col p).filter fun m =>
    isKingInCheckMini { g with board := miniSimBoard g row col p m } p.color = false

/-- Method ChessAI.getAllValidMovesForMinimax. -/
def getAllValidMovesForMinimax (g : GameState) (color : Color) : List FullMove :=
  (List.range 8).flatMap fun row =>
    (List.range 8).flatMap fun col =>
      match getPiece g.board (row : Int) (col : Int) with
      | some p =>
        if p.color = color then
          (getValidMovesForMinimax g (row : Int) (col : Int) p).map fun m =>
            { fromSq := ⟨(row : Int), (col : Int)⟩, toInfo := m, piece := p }
        else []
      | none => []

/-- Method ChessAI.evaluateBoard: material plus position bonus summed with
sign relative to the searching color, center-square bonus, and check
bonuses. -/
def evaluateBoard (g : GameState) (aiColor : Color) : Int :=
  let material :=
    ((List.range 8).map fun (row : Nat) =>
      ((List.range 8).map fun (col : Nat) =>
        match getPiece g.board (row : Int) (col : Int) with
        | some piece =>
          let pieceVal :=
            pieceValue piece.type +
              (((positionBonus piece.type piece.color).getD row []).getD col 0)
          if piece.color = aiColor then pieceVal else -pieceVal
        | none => 0).sum).sum
  let center :=
    (([((3 : Nat), (3 : Nat)), (3, 4), (4, 3), (4, 4)].map fun rc =>
      match getPiece g.board (rc.1 : Int) (rc.2 : Int) with
      | some piece => if piece.color = aiColor then (10 : Int) else -10
      | none => 0)).sum
  let checks :=
    (if isKingInCheckMini g aiColor.opposite then (50 : Int) else 0) +
      (if isKingInCheckMini g aiColor then (-50 : Int) else 0)
  material + center + checks

/-- Sort key of ChessAI.sortMoves for one move (capture bonus of 10 plus a
hundredth of the captured piece value read from the destination square,
minus Manhattan distance to the board center); scores are exact rationals
here. -/
def sortScore (g : GameState) (mv : FullMove) : Rat :=
  let base : Rat :=
    if mv.toInfo.capture then
      10 +
        (match getPiece g.board mv.toInfo.row mv.toInfo.col with
         | some captured => (pieceValue captured.type : Rat) / 100
         | none => 0)
    else 0
  base - (|(mv.toInfo.row : Rat) - 7 / 2| + |(mv.toInfo.col : Rat) - 7 / 2|)

/-- Method ChessAI.sortMoves: stable sort by descending score (the JS
comparator returns scoreB - scoreA). -/
def sortMoves (moves : List FullMove) (g : GameState) : List FullMove :=
  moves.mergeSort fun a b => sortScore g b ≤ sortScore g a

/-- One iteration sequence of the maximizing loop of ChessAI.minimax:
snapshot board and en-passant target, apply the move, flip the turn, recurse
through the supplied continuation, restore the snapshots, update best score
and alpha, and stop on beta cutoff. -/
def maxLoop (recurse : GameState → EInt → EInt → EInt × GameState) (turn : Color) :
    List FullMove → GameState → EInt → EInt → EInt → EInt × GameState
  | [], g, best, _, _ => (best, g)
  | mv :: rest, g, best, alpha, beta =>
    let originalBoard := copyBoard g.board
    let originalEnPassant := g.enPassantTarget
    let g1 := { makeSimulatedMove g mv with currentTurn := turn.opposite }
    let sr := recurse g1 alpha beta
    let g2 :=
      { sr.2 with
        board := originalBoard, enPassantTarget := originalEnPassant, currentTurn := turn }
    let best1 := EInt.max best sr.1
    let alpha1 := EInt.max alpha sr.1
    if EInt.le beta alpha1 then (best1, g2)
    else maxLoop recurse turn rest g2 best1 alpha1 beta

/-- The minimizing loop of ChessAI.minimax (beta update and alpha cutoff). -/
def minLoop (recurse : GameState → EInt → EInt → EInt × GameState) (turn : Color) :
    List FullMove → GameState → EInt → EInt → EInt → EInt × GameState
  | [], g, best, _, _ => (best, g)
  | mv :: rest, g, best, alpha, beta =>
    let originalBoard := copyBoard g.board
    let originalEnPassant := g.enPassantTarget
    let g1 := { makeSimulatedMove g mv with currentTurn := turn.opposite }
    let sr := recurse g1 alpha beta
    let g2 :=
      { sr.2 with
        board := originalBoard, enPassantTarget := originalEnPassant, currentTurn := turn }
    let best1 := EInt.min best sr.1
    let beta1 := EInt.min beta sr.1
    if EInt.le beta1 alpha then (best1, g2)
    else minLoop recurse turn rest g2 best1 alpha beta1

/-- Method ChessAI.minimax, with the mutated game state threaded explicitly:
depth 0 returns the static evaluation; with no legal moves returns the
checkmate score (scaled by this.maxDepth - depth) or the stalemate score 0;
otherwise runs the maximizing or minimizing loop over all legal moves. -/
def minimax (cfg : AIConfig) (aiColor : Color) :
    Nat → GameState → EInt → EInt → Bool → EInt × GameState
  | 0, g, _, _, _ => (EInt.fin (evaluateBoard g aiColor), g)
  | d + 1, g, alpha, beta, isMaximizing =>
    let currentColor := g.currentTurn
    let moves := getAllValidMovesForMinimax g currentColor
    if moves.isEmpty then
      if isKingInCheckMini g currentColor then
        (if isMaximizing then
          EInt.fin (-100000 + ((cfg.maxDepth : Int) - (d + 1)))
        else EInt.fin (100000 - ((cfg.maxDepth : Int) - (d + 1))), g)
      else (EInt.fin 0, g)
    else if isMaximizing then
      maxLoop (fun g1 a b => minimax cfg aiColor d g1 a b false) currentColor moves g
        EInt.negInf alpha beta
    else
      minLoop (fun g1 a b => minimax cfg aiColor d g1 a b true) currentColor moves g
        EInt.posInf alpha beta

/-- The root candidate loop of ChessAI.getBestMove: alpha and beta stay at
their initial values (the source declares them const), the best move is
replaced only on a strictly greater score. -/
def bestMoveLoop (cfg : AIConfig) (aiColor : Color) :
    List FullMove → GameState → Option FullMove → EInt → Option FullMove × GameState
  | [], g, bestMove, _ => (bestMove, g)
  | mv :: rest, g, bestMove, bestScore =>
    let originalBoard := copyBoard g.board
    let originalEnPassant := g.enPassantTarget
    let originalTurn := g.currentTurn
    let g1 :=
      { makeSimulatedMove { g with board := copyBoard g.board } mv with
        currentTurn := aiColor.opposite }
    let sr := minimax cfg aiColor (cfg.maxDepth - 1) g1 EInt.negInf EInt.posInf false
    let g2 :=
      { sr.2 with
        board := originalBoard, enPassantTarget := originalEnPassant,
        currentTurn := originalTurn }
    if EInt.lt bestScore sr.1 then bestMoveLoop cfg aiColor rest g2 (some mv) sr.1
    else bestMoveLoop cfg aiColor rest g2 bestMove bestScore

/-- Method ChessAI.getBestMove.  The two Math.random draws are modelled by
the randHit parameter (whether the random-move branch fires; always false
when randomFactor is 0, as the source guards with randomFactor greater than
0) and the randIdx parameter (the uniformly drawn index, reduced modulo the
number of moves).  The source computes maxDepth - 1 on JS numbers; maxDepth
is always at least 2, so Nat subtraction agrees. -/
def getBestMove (cfg : AIConfig) (g : GameState) (randHit : Bool) (randIdx : Nat) :
    Option FullMove × GameState :=
  let color := g.currentTurn
  let moves := getAllValidMoves g color
  if h : moves.length = 0 then (none, g)
  else if 0 < cfg.randomFactor ∧ randHit then
    (some (moves.get ⟨randIdx % moves.length, Nat.mod_lt _ (Nat.pos_of_ne_zero h)⟩), g)
  else
    let sortedMoves := sortMoves moves g
    bestMoveLoop cfg color sortedMoves g none EInt.negInf

/-! Scenario states used by the concrete parts of the claims.  playMove
follows the UI flow of ChessUI.handleSquareClick: selectPiece stores the
legal moves of the from-square in game.validMoves, then makeMove runs. -/

/-- UI flow for one move: select the from-square, then submit the move. -/
def playMove (g : GameState) (fr fc tr tc : Int) (promo : Option PieceType) : GameState :=
  (makeMove (selectPiece g fr fc) fr fc tr tc promo).2

/-- Position after 1. e4 (white pawn e2 to e4). -/
def afterE4 : GameState := playMove resetState 6 4 4 4 none

/-- Position after 1. e4 a6 2. e5 d5 (the en passant scenario of the spec:
the black d-pawn has just advanced two squares past the white e5 pawn). -/
def epScenario : GameState :=
  playMove (playMove (playMove afterE4 1 0 2 0 none) 4 4 3 4 none) 1 3 3 3 none

/-- The en passant scenario after white plays e5xd6 en passant. -/
def epScenarioAfter : GameState := playMove epScenario 3 4 2 3 none

/-- Position after the fool's mate sequence 1. f3 e5 2. g4 Qh4. -/
def foolsMate : GameState :=
  playMove (playMove (playMove (playMove resetState 6 5 5 5 none) 1 4 3 4 none)
    6 6 4 6 none) 0 3 4 7 none

/-- A state whose validMoves cache was computed for square (6, 4) while a
move is then submitted from square (6, 0): the stale-cache scenario of
claim C1. -/
def staleCacheState : GameState := selectPiece resetState 6 4

/-- An empty board, used to build the promotion scenario. -/
def emptyBoard : Board := fun _ _ => none

/-- A minimal promotion position: a white pawn on a7 about to promote, with
the two kings far apart. -/
def promoBoard : Board :=
  setPiece
    (setPiece (setPiece emptyBoard 1 0 (some (createPiece PieceType.pawn Color.white)))
      7 4 (some (createPiece PieceType.king Color.white)))
    0 7 (some (createPiece PieceType.king Color.black))

/-- The promotion scenario with the pawn square selected (validMoves holds
the promotion move to (0, 0)). -/
def promoState : GameState := selectPiece { resetState with board := promoBoard } 1 0

/-- Reachable-state invariant used by the round-trip theorem: the en passant
target square (the square passed over one ply ago) is empty.  It holds
whenever the target was just set by a two-square advance, because that
advance required the passed-over square to be empty and the target survives
only one ply. -/
def epTargetEmpty (g : GameState) : Prop :=
  ∀ sq : Sq, g.enPassantTarget = some sq → getPiece g.board sq.row sq.col = none

/-- The initial position with the white king-side bishop and knight removed,
so that white may castle kingside. -/
def castleBoard : Board := setPiece (setPiece getInitialBoard 7 5 none) 7 6 none

/-- The castling scenario state: white to move on castleBoard. -/
def castleState : GameState := { resetState with board := castleBoard }

/-- The kingside castling move as getCastlingMoves emits it for white. -/
def castleMove : MoveInfo :=
  { row := 7, col := 6, castling := some CastleSide.kingside }

/-- Cell-level equivalence of board occupants as seen by check detection for
the given mover: occupancy and colors agree everywhere, kinghood agrees, and
piece types agree on every non-mover cell.  The hasMoved flags and the types
of mover-colored non-king pieces are free: check detection never reads
them. -/
def pieceEquivFor (mover : Color) : Option Piece → Option Piece → Prop
  | none, none => True
  | some a, some b =>
    a.color = b.color ∧ (a.type = PieceType.king ↔ b.type = PieceType.king) ∧
      (¬(a.color = mover) → a.type = b.type)
  | _, _ => False

/-- Board-level equivalence for check detection on the mover's king. -/
def boardEquivFor (mover : Color) (b1 b2 : Board) : Prop :=
  ∀ r c : Int, pieceEquivFor mover (getPiece b1 r c) (getPiece b2 r c)

/-! Basic lemmas about the board accessors. -/

/-- Out-of-range reads return null. -/
theorem getPiece_out {b : Board} {r c : Int}
    (h : ¬(0 ≤ r ∧ r ≤ 7 ∧ 0 ≤ c ∧ c ≤ 7)) : getPiece b r c = none := by
  simp [getPiece, h]

/-- A successful read implies in-range coordinates. -/
theorem bounds_of_getPiece_some {b : Board} {r c : Int} {p : Piece}
    (h : getPiece b r c = some p) : 0 ≤ r ∧ r ≤ 7 ∧ 0 ≤ c ∧ c ≤ 7 := by
  by_contra hb
  rw [getPiece_out hb] at h
  exact Option.noConfusion h

/-- Out-of-range writes do nothing. -/
theorem setPiece_out {b : Board} {r c : Int} {p : Option Piece}
    (h : ¬(0 ≤ r ∧ r ≤ 7 ∧ 0 ≤ c ∧ c ≤ 7)) : setPiece b r c p = b := by
  simp [setPiece, h]

/-- Reading back a written cell. -/
theorem getPiece_setPiece_self {b : Board} {r c : Int} {p : Option Piece}
    (h : 0 ≤ r ∧ r ≤ 7 ∧ 0 ≤ c ∧ c ≤ 7) : getPiece (setPiece b r c p) r c = p := by
  simp [getPiece, setPiece, h]

/-- Reading any other cell after a write. -/
theorem getPiece_setPiece_ne {b : Board} {r c r' c' : Int} {p : Option Piece}
    (h : r' ≠ r ∨ c' ≠ c) : getPiece (setPiece b r c p) r' c' = getPiece b r' c' := by
  by_cases hw : 0 ≤ r ∧ r ≤ 7 ∧ 0 ≤ c ∧ c ≤ 7
  · by_cases hg : 0 ≤ r' ∧ r' ≤ 7 ∧ 0 ≤ c' ∧ c' ≤ 7
    · have hne : ¬(r'.toNat = r.toNat ∧ c'.toNat = c.toNat) := by
        rcases h with h | h <;> intro hc <;> exact h (by omega)
      simp [getPiece, setPiece, hw, hg, hne]
    · rw [getPiece_out hg, getPiece_out hg]
  · rw [setPiece_out hw]

/-- Boards agree when all in-range reads agree. -/
theorem board_ext {b1 b2 : Board}
    (h : ∀ r c : Int, 0 ≤ r → r ≤ 7 → 0 ≤ c → c ≤ 7 → getPiece b1 r c = getPiece b2 r c) :
    b1 = b2 := by
  funext i j
  have hi : (0 : Int) ≤ (i.val : Int) := by omega
  have hi7 : ((i.val : Int)) ≤ 7 := by omega
  have hj : (0 : Int) ≤ (j.val : Int) := by omega
  have hj7 : ((j.val : Int)) ≤ 7 := by omega
  have := h i.val j.val hi hi7 hj hj7
  have hb : (0:Int) ≤ (i.val : Int) ∧ ((i.val : Int)) ≤ 7 ∧ (0:Int) ≤ (j.val : Int) ∧ ((j.val : Int)) ≤ 7 := ⟨hi, hi7, hj, hj7⟩
  simpa [getPiece, hb, Fin.ext_iff] using this

/-! Shape lemmas for the move generators: what membership in a generated
move list says about the move, read off the push sites of the source. -/

/-- Forward pawn moves: straight ahead, no capture flags, two-step only from
the starting row over two empty squares. -/
theorem mem_pawnForward {b : Board} {row col : Int} {p : Piece} {m : MoveInfo}
    (hm : m ∈ pawnForward b row col p) :
    m.enPassant = false ∧ m.castling = none ∧ m.capture = false ∧ m.col = col ∧
      0 ≤ m.row ∧ m.row ≤ 7 ∧ getPiece b (row + pawnDir p) col = none ∧
      ((m.row = row + pawnDir p ∧ m.twoStep = false ∧
          m.promotion = decide (m.row = promotionRowOf p)) ∨
        (m.row = row + 2 * pawnDir p ∧ m.twoStep = true ∧ m.promotion = false ∧
          row = pawnStartRow p ∧ getPiece b (row + 2 * pawnDir p) col = none)) := by
  simp only [pawnForward] at hm
  by_cases hc : 0 ≤ row + pawnDir p ∧ row + pawnDir p ≤ 7 ∧
      getPiece b (row + pawnDir p) col = none
  · rw [if_pos hc] at hm
    rcases List.mem_cons.mp hm with rfl | hm
    · exact ⟨rfl, rfl, rfl, rfl, hc.1, hc.2.1, hc.2.2, Or.inl ⟨rfl, rfl, rfl⟩⟩
    · by_cases hc2 : row = pawnStartRow p ∧ getPiece b (row + 2 * pawnDir p) col = none
      · rw [if_pos hc2] at hm
        rcases List.mem_singleton.mp hm with rfl
        refine ⟨rfl, rfl, rfl, rfl, ?_, ?_, hc.2.2, Or.inr ⟨rfl, rfl, rfl, hc2.1, hc2.2⟩⟩
        · show (0 : Int) ≤ row + 2 * pawnDir p
          have h21 := hc2.1
          by_cases hw : p.color = Color.white <;>
            simp only [pawnDir, pawnStartRow, hw, if_true, if_false,
              reduceIte] at h21 ⊢ <;> omega
        · show row + 2 * pawnDir p ≤ 7
          have h21 := hc2.1
          by_cases hw : p.color = Color.white <;>
            simp only [pawnDir, pawnStartRow, hw, if_true, if_false,
              reduceIte] at h21 ⊢ <;> omega
      · rw [if_neg hc2] at hm
        simp at hm
  · rw [if_neg hc] at hm
    simp at hm

/-- Diagonal pawn moves with attackOnly = false: one step diagonally
forward, always flagged as captures, either a normal capture of an enemy
occupant or an en passant capture of the current en-passant target. -/
theorem mem_pawnDiag {b : Board} {ep : Option Sq} {row col : Int} {p : Piece}
    {dc : Int} {m : MoveInfo} (hm : m ∈ pawnDiag b ep row col p false dc) :
    m.castling = none ∧ m.twoStep = false ∧ m.capture = true ∧
      m.row = row + pawnDir p ∧ m.col = col + dc ∧
      0 ≤ m.row ∧ m.row ≤ 7 ∧ 0 ≤ m.col ∧ m.col ≤ 7 ∧
      ((m.enPassant = false ∧ m.promotion = decide (m.row = promotionRowOf p) ∧
          ∃ t, getPiece b (row + pawnDir p) (col + dc) = some t ∧ t.color ≠ p.color) ∨
        (m.enPassant = true ∧ m.promotion = false ∧ ep = some ⟨m.row, m.col⟩)) := by
  simp only [pawnDiag, Bool.false_eq_true, if_false, true_and] at hm
  by_cases hc : 0 ≤ row + pawnDir p ∧ row + pawnDir p ≤ 7 ∧ 0 ≤ col + dc ∧ col + dc ≤ 7
  · rw [if_pos hc] at hm
    rcases List.mem_append.mp hm with hm | hm
    · rcases hx : getPiece b (row + pawnDir p) (col + dc) with _ | t
      · simp only [hx] at hm
        simp at hm
      · simp only [hx] at hm
        by_cases ht : t.color ≠ p.color
        · rw [if_pos ht] at hm
          rcases List.mem_singleton.mp hm with rfl
          exact ⟨rfl, rfl, rfl, rfl, rfl, hc.1, hc.2.1, hc.2.2.1, hc.2.2.2,
            Or.inl ⟨rfl, rfl, t, rfl, ht⟩⟩
        · rw [if_neg ht] at hm
          simp at hm
    · by_cases hept : ep = some ⟨row + pawnDir p, col + dc⟩
      · rw [if_pos hept] at hm
        rcases List.mem_singleton.mp hm with rfl
        exact ⟨rfl, rfl, rfl, rfl, rfl, hc.1, hc.2.1, hc.2.2.1, hc.2.2.2,
          Or.inr ⟨rfl, rfl, hept⟩⟩
      · rw [if_neg hept] at hm
        simp at hm
  · rw [if_neg hc] at hm
    simp at hm

/-- Sliding moves along one ray: every generated move sits k+1 steps along
the direction, carries no special flags, and stays in range. -/
theorem mem_slideRay {b : Board} {pc : Color} {dr dc r c : Int} {fuel : Nat}
    {m : MoveInfo} (hm : m ∈ slideRay b pc dr dc r c fuel) :
    m.enPassant = false ∧ m.castling = none ∧ m.twoStep = false ∧
      m.promotion = false ∧ 0 ≤ m.row ∧ m.row ≤ 7 ∧ 0 ≤ m.col ∧ m.col ≤ 7 ∧
      ∃ k : Nat, m.row = r + k * dr ∧ m.col = c + k * dc := by
  induction fuel generalizing r c with
  | zero => simp [slideRay] at hm
  | succ fuel ih =>
    unfold slideRay at hm
    by_cases hc : 0 ≤ r ∧ r ≤ 7 ∧ 0 ≤ c ∧ c ≤ 7
    · rw [if_pos hc] at hm
      rcases hx : getPiece b r c with _ | t
      · simp only [hx] at hm
        rcases List.mem_cons.mp hm with rfl | hm
        · exact ⟨rfl, rfl, rfl, rfl, hc.1, hc.2.1, hc.2.2.1, hc.2.2.2,
            0, by ring, by ring⟩
        · obtain ⟨h1, h2, h3, h4, h5, h6, h7, h8, k, hk1, hk2⟩ := ih hm
          exact ⟨h1, h2, h3, h4, h5, h6, h7, h8, k + 1, by push_cast [hk1]; ring,
            by push_cast [hk2]; ring⟩
      · simp only [hx] at hm
        by_cases ht : t.color ≠ pc
        · rw [if_pos ht] at hm
          rcases List.mem_singleton.mp hm with rfl
          exact ⟨rfl, rfl, rfl, rfl, hc.1, hc.2.1, hc.2.2.1, hc.2.2.2, 0, by ring, by ring⟩
        · rw [if_neg ht] at hm
          simp at hm
    · rw [if_neg hc] at hm
      simp at hm

/-- Offset-table moves (knight and basic king moves): destination is the
source plus one offset from the table, no special flags, in range. -/
theorem mem_offsetMoves {b : Board} {row col : Int} {p : Piece}
    {offsets : List (Int × Int)} {m : MoveInfo} (hm : m ∈ offsetMoves b row col p offsets) :
    m.enPassant = false ∧ m.castling = none ∧ m.twoStep = false ∧
      m.promotion = false ∧ 0 ≤ m.row ∧ m.row ≤ 7 ∧ 0 ≤ m.col ∧ m.col ≤ 7 ∧
      ∃ d ∈ offsets, m.row = row + d.1 ∧ m.col = col + d.2 := by
  unfold offsetMoves at hm
  rcases List.mem_filterMap.mp hm with ⟨d, hd, hval⟩
  simp only at hval
  by_cases hc : 0 ≤ row + d.1 ∧ row + d.1 ≤ 7 ∧ 0 ≤ col + d.2 ∧ col + d.2 ≤ 7
  · rw [if_pos hc] at hval
    rcases hx : getPiece b (row + d.1) (col + d.2) with _ | t
    · simp only [hx] at hval
      rcases Option.some.inj hval with rfl
      exact ⟨rfl, rfl, rfl, rfl, hc.1, hc.2.1, hc.2.2.1, hc.2.2.2, d, hd, rfl, rfl⟩
    · simp only [hx] at hval
      by_cases ht : t.color ≠ p.color
      · rw [if_pos ht] at hval
        rcases Option.some.inj hval with rfl
        exact ⟨rfl, rfl, rfl, rfl, hc.1, hc.2.1, hc.2.2.1, hc.2.2.2, d, hd, rfl, rfl⟩
      · rw [if_neg ht] at hval
        exact absurd hval (by simp)
  · rw [if_neg hc] at hval
    exact absurd hval (by simp)

/-- Castling moves: row preserved, column 6 or 2, the castling flag set and
all other flags clear, and the source-checked conditions hold (unmoved rook
on the corner, empty and unattacked transit squares). -/
theorem mem_getCastlingMoves {b : Board} {ep : Option Sq} {row col : Int} {p : Piece}
    {m : MoveInfo} (hm : m ∈ getCastlingMoves b ep row col p) :
    m.enPassant = false ∧ m.twoStep = false ∧ m.promotion = false ∧
      m.capture = false ∧ m.row = row ∧
      ((m.castling = some CastleSide.kingside ∧ m.col = 6 ∧
          (∃ rk, getPiece b row 7 = some rk ∧ rk.type = PieceType.rook ∧ rk.hasMoved = false) ∧
          getPiece b row 5 = none ∧ getPiece b row 6 = none ∧
          isSquareAttacked b ep row 5 p.color.opposite = false ∧
          isSquareAttacked b ep row 6 p.color.opposite = false) ∨
        (m.castling = some CastleSide.queenside ∧ m.col = 2 ∧
          (∃ rk, getPiece b row 0 = some rk ∧ rk.type = PieceType.rook ∧ rk.hasMoved = false) ∧
          getPiece b row 1 = none ∧ getPiece b row 2 = none ∧ getPiece b row 3 = none ∧
          isSquareAttacked b ep row 2 p.color.opposite = false ∧
          isSquareAttacked b ep row 3 p.color.opposite = false)) := by
  simp only [getCastlingMoves] at hm
  rcases List.mem_append.mp hm with hm | hm
  · rcases hx : getPiece b row 7 with _ | rk
    · simp only [hx] at hm
      simp at hm
    · simp only [hx] at hm
      by_cases hc : rk.type = PieceType.rook ∧ rk.hasMoved = false ∧
          getPiece b row 5 = none ∧ getPiece b row 6 = none ∧
          isSquareAttacked b ep row 5 p.color.opposite = false ∧
          isSquareAttacked b ep row 6 p.color.opposite = false
      · rw [if_pos hc] at hm
        rcases List.mem_singleton.mp hm with rfl
        exact ⟨rfl, rfl, rfl, rfl, rfl,
          Or.inl ⟨rfl, rfl, ⟨rk, rfl, hc.1, hc.2.1⟩, hc.2.2.1, hc.2.2.2.1,
            hc.2.2.2.2.1, hc.2.2.2.2.2⟩⟩
      · rw [if_neg hc] at hm
        simp at hm
  · rcases hx : getPiece b row 0 with _ | rk
    · simp only [hx] at hm
      simp at hm
    · simp only [hx] at hm
      by_cases hc : rk.type = PieceType.rook ∧ rk.hasMoved = false ∧
          getPiece b row 1 = none ∧ getPiece b row 2 = none ∧ getPiece b row 3 = none ∧
          isSquareAttacked b ep row 2 p.color.opposite = false ∧
          isSquareAttacked b ep row 3 p.color.opposite = false
      · rw [if_pos hc] at hm
        rcases List.mem_singleton.mp hm with rfl
        exact ⟨rfl, rfl, rfl, rfl, rfl,
          Or.inr ⟨rfl, rfl, ⟨rk, rfl, hc.1, hc.2.1⟩, hc.2.2.1, hc.2.2.2.1,
            hc.2.2.2.2.1, hc.2.2.2.2.2.1, hc.2.2.2.2.2.2⟩⟩
      · rw [if_neg hc] at hm
        simp at hm

/-- The three pawn constants per color, resolved. -/
theorem pawn_consts (p : Piece) :
    (pawnDir p = -1 ∧ pawnStartRow p = 6 ∧ promotionRowOf p = 0) ∨
      (pawnDir p = 1 ∧ pawnStartRow p = 1 ∧ promotionRowOf p = 7) := by
  by_cases hw : p.color = Color.white
  · exact Or.inl (by simp [pawnDir, pawnStartRow, promotionRowOf, hw])
  · exact Or.inr (by simp [pawnDir, pawnStartRow, promotionRowOf, hw])

/-- Full inversion for ChessGame.getRawMoves: every generated move is
in range and distinct from the source square; en passant moves carry the
pawn shape and require the matching en-passant target; castling moves carry
the king shape and all source-checked conditions; the promotion flag only
arises for pawns. -/
theorem mem_getRawMoves_inv {b : Board} {ep : Option Sq} {row col : Int}
    {p : Piece} {m : MoveInfo} (hp : getPiece b row col = some p)
    (hm : m ∈ getRawMoves b ep row col p) :
    (0 ≤ m.row ∧ m.row ≤ 7 ∧ 0 ≤ m.col ∧ m.col ≤ 7) ∧
    ¬(m.row = row ∧ m.col = col) ∧
    (m.enPassant = true →
      p.type = PieceType.pawn ∧ m.castling = none ∧ m.twoStep = false ∧
        m.promotion = false ∧ m.capture = true ∧ ep = some ⟨m.row, m.col⟩ ∧
        m.row = row + pawnDir p ∧ (m.col = col + -1 ∨ m.col = col + 1)) ∧
    (∀ side, m.castling = some side →
      p.type = PieceType.king ∧ m.enPassant = false ∧ m.twoStep = false ∧
        m.promotion = false ∧ m.row = row ∧ p.hasMoved = false ∧
        isInCheck b ep p.color = false ∧
        (side = CastleSide.kingside →
          m.col = 6 ∧
            (∃ rk, getPiece b row 7 = some rk ∧ rk.type = PieceType.rook ∧
              rk.hasMoved = false) ∧
            getPiece b row 5 = none ∧ getPiece b row 6 = none ∧
            isSquareAttacked b ep row 5 p.color.opposite = false ∧
            isSquareAttacked b ep row 6 p.color.opposite = false) ∧
        (side = CastleSide.queenside →
          m.col = 2 ∧
            (∃ rk, getPiece b row 0 = some rk ∧ rk.type = PieceType.rook ∧
              rk.hasMoved = false) ∧
            getPiece b row 1 = none ∧ getPiece b row 2 = none ∧
            getPiece b row 3 = none ∧
            isSquareAttacked b ep row 2 p.color.opposite = false ∧
            isSquareAttacked b ep row 3 p.color.opposite = false)) ∧
    (m.promotion = true → p.type = PieceType.pawn) := by
  obtain ⟨hr0, hr7, hc0, hc7⟩ := bounds_of_getPiece_some hp
  rcases hty : p.type with _ | _ | _ | _ | _ | _ <;>
    simp only [getRawMoves, hty] at hm
  case king =>
    rcases List.mem_append.mp hm with hm | hm
    · obtain ⟨he, hca, ht2, hpo, hb1, hb2, hb3, hb4, d, hd', hr, hc⟩ := mem_offsetMoves hm
      refine ⟨⟨hb1, hb2, hb3, hb4⟩, ?_, by simp [he], by simp [hca], by simp [hpo, hty]⟩
      simp only [kingOffsets, List.mem_cons, List.mem_singleton, List.not_mem_nil, or_false] at hd'
      rcases hd' with rfl | rfl | rfl | rfl | rfl | rfl | rfl | rfl <;>
        simp at hr hc <;> rintro ⟨hrr, hcc⟩ <;> omega
    · by_cases hg : p.hasMoved = false ∧ isInCheck b ep p.color = false
      · rw [if_pos hg] at hm
        obtain ⟨he, ht2, hpo, hcp, hr, hrest⟩ := mem_getCastlingMoves hm
        rcases hrest with ⟨hca, hc6, hrk, he5, he6, ha5, ha6⟩ |
          ⟨hca, hc2, hrk, he1, he2, he3, ha2, ha3⟩
        · refine ⟨⟨by omega, by omega, by omega, by omega⟩, ?_, by simp [he], ?_,
            by simp [hpo]⟩
          · rintro ⟨-, hcc⟩
            rw [hc6] at hcc
            rw [← hcc] at hp
            rw [he6] at hp
            exact Option.noConfusion hp
          · intro side hside
            rw [hca] at hside
            rcases Option.some.inj hside with rfl
            refine ⟨rfl, he, ht2, hpo, hr, hg.1, hg.2,
              fun _ => ⟨hc6, hrk, he5, he6, ha5, ha6⟩, fun hq => ?_⟩
            exact absurd hq (by simp)
        · refine ⟨⟨by omega, by omega, by omega, by omega⟩, ?_, by simp [he], ?_,
            by simp [hpo]⟩
          · rintro ⟨-, hcc⟩
            rw [hc2] at hcc
            rw [← hcc] at hp
            rw [he2] at hp
            exact Option.noConfusion hp
          · intro side hside
            rw [hca] at hside
            rcases Option.some.inj hside with rfl
            refine ⟨rfl, he, ht2, hpo, hr, hg.1, hg.2, fun hk => ?_,
              fun _ => ⟨hc2, hrk, he1, he2, he3, ha2, ha3⟩⟩
            exact absurd hk (by simp)
      · rw [if_neg hg] at hm
        simp at hm
  case pawn =>
    rcases pawn_consts p with ⟨hd, hs, hpr⟩ | ⟨hd, hs, hpr⟩ <;>
    · simp only [getPawnMoves, Bool.false_eq_true, if_false] at hm
      rcases List.mem_append.mp hm with hm | hm
      rcases List.mem_append.mp hm with hm | hm
      · obtain ⟨he, hca, hcp, hc, hb1, hb2, hone, hcases⟩ := mem_pawnForward hm
        refine ⟨⟨hb1, hb2, by omega, by omega⟩, ?_, by simp [he], by simp [hca], fun _ => rfl⟩
        rcases hcases with ⟨hr, -, -⟩ | ⟨hr, -, -, hst, -⟩ <;> rintro ⟨hrr, -⟩ <;> omega
      · obtain ⟨hca, ht2, hcp, hr, hc, hb1, hb2, hb3, hb4, hcases⟩ := mem_pawnDiag hm
        refine ⟨⟨hb1, hb2, hb3, hb4⟩, by rintro ⟨hrr, -⟩ <;> omega, ?_, by simp [hca],
          fun _ => rfl⟩
        intro hep
        rcases hcases with ⟨hef, -, -⟩ | ⟨-, hpo, hept⟩
        · rw [hef] at hep
          exact absurd hep (by simp)
        · exact ⟨rfl, hca, ht2, hpo, hcp, hept, hr, Or.inl hc⟩
      · obtain ⟨hca, ht2, hcp, hr, hc, hb1, hb2, hb3, hb4, hcases⟩ := mem_pawnDiag hm
        refine ⟨⟨hb1, hb2, hb3, hb4⟩, by rintro ⟨hrr, -⟩ <;> omega, ?_, by simp [hca],
          fun _ => rfl⟩
        intro hep
        rcases hcases with ⟨hef, -, -⟩ | ⟨-, hpo, hept⟩
        · rw [hef] at hep
          exact absurd hep (by simp)
        · exact ⟨rfl, hca, ht2, hpo, hcp, hept, hr, Or.inr hc⟩
  case knight =>
    obtain ⟨he, hca, ht2, hpo, hb1, hb2, hb3, hb4, d, hd', hr, hc⟩ :=
      mem_offsetMoves (hm : m ∈ offsetMoves b row col p knightOffsets)
    refine ⟨⟨hb1, hb2, hb3, hb4⟩, ?_, by simp [he], by simp [hca], by simp [hpo]⟩
    simp only [knightOffsets, List.mem_cons, List.mem_singleton, List.not_mem_nil, or_false] at hd'
    rcases hd' with rfl | rfl | rfl | rfl | rfl | rfl | rfl | rfl <;>
      simp at hr hc <;> rintro ⟨hrr, hcc⟩ <;> omega
  case rook =>
    rcases List.mem_flatMap.mp hm with ⟨d, hd', hray⟩
    obtain ⟨he, hca, ht2, hpo, hb1, hb2, hb3, hb4, k, hk1, hk2⟩ := mem_slideRay hray
    refine ⟨⟨hb1, hb2, hb3, hb4⟩, ?_, by simp [he], by simp [hca], by simp [hpo]⟩
    simp only [rookDirections, List.mem_cons, List.mem_singleton, List.not_mem_nil, or_false] at hd'
    rcases hd' with rfl | rfl | rfl | rfl <;>
      simp at hk1 hk2 <;> rintro ⟨hrr, hcc⟩ <;> omega
  case bishop =>
    rcases List.mem_flatMap.mp hm with ⟨d, hd', hray⟩
    obtain ⟨he, hca, ht2, hpo, hb1, hb2, hb3, hb4, k, hk1, hk2⟩ := mem_slideRay hray
    refine ⟨⟨hb1, hb2, hb3, hb4⟩, ?_, by simp [he], by simp [hca], by simp [hpo]⟩
    simp only [bishopDirections, List.mem_cons, List.mem_singleton, List.not_mem_nil, or_false] at hd'
    rcases hd' with rfl | rfl | rfl | rfl <;>
      simp at hk1 hk2 <;> rintro ⟨hrr, hcc⟩ <;> omega
  case queen =>
    rcases List.mem_flatMap.mp hm with ⟨d, hd', hray⟩
    obtain ⟨he, hca, ht2, hpo, hb1, hb2, hb3, hb4, k, hk1, hk2⟩ := mem_slideRay hray
    refine ⟨⟨hb1, hb2, hb3, hb4⟩, ?_, by simp [he], by simp [hca], by simp [hpo]⟩
    simp only [rookDirections, bishopDirections, List.cons_append, List.nil_append,
      List.mem_cons, List.mem_singleton, List.not_mem_nil, or_false] at hd'
    rcases hd' with rfl | rfl | rfl | rfl | rfl | rfl | rfl | rfl <;>
      simp at hk1 hk2 <;> rintro ⟨hrr, hcc⟩ <;> omega

/-- Flipping the turn twice is the identity. -/
theorem Color.opposite_opposite (c : Color) : c.opposite.opposite = c := by
  cases c <;> rfl

/-- Inversion for ChessGame.getValidMoves: a returned move came from the raw
moves of the occupant of the square, the occupant has the turn color, and
the simulated position passed the own-king-safety filter. -/
theorem mem_getValidMovesB_inv {b : Board} {ep : Option Sq} {turn : Color}
    {row col : Int} {m : MoveInfo} (hm : m ∈ getValidMovesB b ep turn row col) :
    ∃ p, getPiece b row col = some p ∧ p.color = turn ∧
      m ∈ getRawMoves b ep row col p ∧
      isInCheck (simulateMove b row col m.row m.col m) ep p.color = false := by
  unfold getValidMovesB at hm
  rcases hx : getPiece b row col with _ | p
  · simp only [hx] at hm
    simp at hm
  · simp only [hx] at hm
    by_cases hcolor : p.color ≠ turn
    · rw [if_pos hcolor] at hm
      simp at hm
    · rw [if_neg hcolor] at hm
      obtain ⟨hraw, hflt⟩ := List.mem_filter.mp hm
      exact ⟨p, rfl, not_not.mp hcolor, hraw, of_decide_eq_true hflt⟩

/-- What a successful destination lookup in this.validMoves says: the found
move is a member and has the requested coordinates. -/
theorem find?_dest {l : List MoveInfo} {tr tc : Int} {mi : MoveInfo}
    (h : (l.find? fun m => m.row == tr && m.col == tc) = some mi) :
    mi ∈ l ∧ mi.row = tr ∧ mi.col = tc := by
  have hmem := List.mem_of_find?_eq_some h
  have hpred := List.find?_some h
  simp only [Bool.and_eq_true, beq_iff_eq] at hpred
  exact ⟨hmem, hpred.1, hpred.2⟩

/-- checkGameState touches only isCheck, gameOver and winner. -/
theorem checkGameState_preserves (g : GameState) :
    (checkGameState g).board = g.board ∧
      (checkGameState g).currentTurn = g.currentTurn ∧
      (checkGameState g).enPassantTarget = g.enPassantTarget ∧
      (checkGameState g).moveHistory = g.moveHistory ∧
      (checkGameState g).capturedWhite = g.capturedWhite ∧
      (checkGameState g).capturedBlack = g.capturedBlack ∧
      (checkGameState g).validMoves = g.validMoves ∧
      (checkGameState g).lastMove = g.lastMove := by
  simp only [checkGameState]
  split <;> exact ⟨rfl, rfl, rfl, rfl, rfl, rfl, rfl, rfl⟩

/-- checkGameState recomputes the check flag for the side to move. -/
theorem checkGameState_isCheck (g : GameState) :
    (checkGameState g).isCheck = isInCheck g.board g.enPassantTarget g.currentTurn := by
  simp only [checkGameState]
  split <;> rfl

/-- When the side to move still has a move, checkGameState leaves the
terminal fields alone. -/
theorem checkGameState_ongoing (g : GameState) (h : hasAnyValidMove g = true) :
    (checkGameState g).gameOver = g.gameOver ∧ (checkGameState g).winner = g.winner := by
  simp only [checkGameState, h]
  exact ⟨rfl, rfl⟩

/-- When the side to move has no move at all, checkGameState ends the game:
checkmate gives the win to the opponent of the stuck side, stalemate is a
draw. -/
theorem checkGameState_terminal (g : GameState) (h : hasAnyValidMove g = false) :
    (checkGameState g).gameOver = true ∧
      (checkGameState g).winner =
        some (if isInCheck g.board g.enPassantTarget g.currentTurn then
          winnerOfColor g.currentTurn.opposite else Winner.draw) := by
  simp only [checkGameState, h]
  exact ⟨rfl, rfl⟩

/-- C4: in the standard initial position with white to move, getAllValidMoves
for white returns exactly 20 moves, of which 16 are pawn moves and 4 are
knight moves, and getValidMoves on the e-file pawn square (6, 4) returns
exactly the two forward destinations (one square and two squares ahead). -/
theorem initial_position_move_counts :
    (getAllValidMoves resetState Color.white).length = 20 ∧
      ((getAllValidMoves resetState Color.white).filter fun mv =>
        mv.piece.type == PieceType.pawn).length = 16 ∧
      ((getAllValidMoves resetState Color.white).filter fun mv =>
        mv.piece.type == PieceType.knight).length = 4 ∧
      getValidMoves resetState 6 4 =
        [{ row := 5, col := 4 }, { row := 4, col := 4, twoStep := true }] := by
  decide

/-- C6: an en passant capture is offered only when the destination equals the
current en-passant target (which exists for exactly one ply, because every
completed move resets the target: it becomes the passed-over square after a
two-square advance and null otherwise); and in the literal scenario 1. e4 a6
2. e5 d5, the move e5xd6 en passant is offered and, applied, removes the
black pawn from d5 (3, 3) rather than from d6 (2, 3). -/
theorem enPassant_one_ply_and_target :
    (∀ (g : GameState) (r c : Int) (m : MoveInfo), m ∈ getValidMoves g r c →
      m.enPassant = true → g.enPassantTarget = some ⟨m.row, m.col⟩) ∧
    (∀ (g : GameState) (fr fc tr tc : Int) (promo : Option PieceType) (piece : Piece)
      (mi : MoveInfo), getPiece g.board fr fc = some piece →
      (g.validMoves.find? fun m => m.row == tr && m.col == tc) = some mi →
      ((makeMove g fr fc tr tc promo).2).enPassantTarget =
        (if mi.twoStep = true then some ⟨epCapRow piece tr, tc⟩ else none)) ∧
    epScenario.enPassantTarget = some ⟨2, 3⟩ ∧
    ({ row := 2, col := 3, capture := true, enPassant := true } : MoveInfo) ∈
      getValidMoves epScenario 3 4 ∧
    getPiece epScenario.board 3 3 =
      some { type := PieceType.pawn, color := Color.black, hasMoved := true } ∧
    getPiece epScenario.board 2 3 = none ∧
    getPiece epScenarioAfter.board 3 3 = none ∧
    getPiece epScenarioAfter.board 2 3 =
      some { type := PieceType.pawn, color := Color.white, hasMoved := true } := by
  refine ⟨?_, ?_, by decide, by decide, by decide, by decide, by decide, by decide⟩
  · intro g r c m hm hep
    obtain ⟨p, hp, -, hraw, -⟩ := mem_getValidMovesB_inv hm
    obtain ⟨-, -, hepfact, -⟩ := mem_getRawMoves_inv hp hraw
    exact (hepfact hep).2.2.2.2.2.1
  · intro g fr fc tr tc promo piece mi hp hfind
    simp only [makeMove, hp, hfind]
    rw [(checkGameState_preserves _).2.2.1]
    rfl

/-- Witness for C6: after white plays e2-e4 from the initial position, the
en-passant target is the passed-over square e3 = (5, 4). -/
theorem enPassant_one_ply_and_target_witness :
    ((makeMove (selectPiece resetState 6 4) 6 4 4 4 none).2).enPassantTarget =
      some ⟨5, 4⟩ := by
  have h := enPassant_one_ply_and_target.2.1 (selectPiece resetState 6 4) 6 4 4 4 none
    { type := PieceType.pawn, color := Color.white, hasMoved := false }
    { row := 4, col := 4, twoStep := true } (by decide) (by decide)
  simpa [epCapRow] using h

/-- C5: every successful makeMove leaves the new state with isCheck equal to
the recomputed in-check test for the new side to move, and whenever that side
has no valid move at all the game ends, giving the win to the opponent when
in check (checkmate) and a draw otherwise (stalemate); concretely, the
fool's mate sequence 1. f3 e5 2. g4 Qh4 ends the game with winner black and
white in check. -/
theorem terminal_detection_and_fools_mate :
    (∀ (g g2 : GameState) (fr fc tr tc : Int) (promo : Option PieceType),
      makeMove g fr fc tr tc promo = (true, g2) →
      g2.isCheck = isInCheck g2.board g2.enPassantTarget g2.currentTurn ∧
      (hasAnyValidMove g2 = false →
        g2.gameOver = true ∧
        g2.winner = some (if g2.isCheck then winnerOfColor g2.currentTurn.opposite
          else Winner.draw))) ∧
    foolsMate.gameOver = true ∧ foolsMate.winner = some Winner.black ∧
    foolsMate.isCheck = true ∧ foolsMate.currentTurn = Color.white := by
  refine ⟨?_, by decide, by decide, by decide, by decide⟩
  intro g g2 fr fc tr tc promo hmk
  rcases hp : getPiece g.board fr fc with _ | piece
  · simp only [makeMove, hp] at hmk
    simp at hmk
  rcases hfind : g.validMoves.find? fun m => m.row == tr && m.col == tc with _ | mi
  · simp only [makeMove, hp, hfind] at hmk
    simp at hmk
  · simp only [makeMove, hp, hfind] at hmk
    have hg2 : checkGameState (makeMoveState g fr fc tr tc piece mi promo) = g2 :=
      congrArg Prod.snd hmk
    subst hg2
    set g1 := makeMoveState g fr fc tr tc piece mi promo with hg1
    obtain ⟨hb, ht, he, -⟩ := checkGameState_preserves g1
    have hham : hasAnyValidMove (checkGameState g1) = hasAnyValidMove g1 := by
      simp only [hasAnyValidMove, hb, ht, he]
    constructor
    · rw [checkGameState_isCheck, hb, ht, he]
    · intro hnone
      rw [hham] at hnone
      obtain ⟨hgo, hw⟩ := checkGameState_terminal g1 hnone
      refine ⟨hgo, ?_⟩
      rw [hw, checkGameState_isCheck, ht]

/-- Witness for C5: instantiated at the first fool's mate move 1. f3 from the
initial position. -/
theorem terminal_detection_witness :
    afterE4.isCheck = isInCheck afterE4.board afterE4.enPassantTarget afterE4.currentTurn := by
  have h := (terminal_detection_and_fools_mate.1 (selectPiece resetState 6 4) afterE4
    6 4 4 4 none (by rfl)).1
  exact h

/-- C10: a legal promotion-flagged move submitted with no promotion choice
still succeeds, and the moved piece stays a pawn on the promotion rank; the
replacement piece is created only when both the flag and a choice are
present. -/
theorem promotion_requires_choice (g : GameState) (fr fc tr tc : Int)
    (piece : Piece) (mi : MoveInfo)
    (hvm : g.validMoves = getValidMoves g fr fc)
    (hp : getPiece g.board fr fc = some piece)
    (hfind : (g.validMoves.find? fun m => m.row == tr && m.col == tc) = some mi)
    (hpromo : mi.promotion = true) :
    (makeMove g fr fc tr tc none).1 = true ∧
      getPiece ((makeMove g fr fc tr tc none).2).board tr tc =
        some { type := PieceType.pawn, color := piece.color, hasMoved := true } := by
  obtain ⟨hmem, hrow, hcol⟩ := find?_dest hfind
  rw [hvm] at hmem
  obtain ⟨p, hp', hpc, hraw, hsafe⟩ := mem_getValidMovesB_inv hmem
  obtain rfl : piece = p := Option.some.inj (hp.symm.trans hp')
  obtain ⟨hbnd, hnefrom, -, -, hpawnty⟩ := mem_getRawMoves_inv hp hraw
  have hty : piece.type = PieceType.pawn := hpawnty hpromo
  refine ⟨by simp only [makeMove, hp, hfind], ?_⟩
  simp only [makeMove, hp, hfind]
  rw [(checkGameState_preserves _).1]
  show getPiece (makeMoveBoard g.board fr fc tr tc piece mi none) tr tc = _
  unfold makeMoveBoard
  simp only [hpromo]
  rw [getPiece_setPiece_ne ?hne, getPiece_setPiece_self ?hbd]
  case hne =>
    rw [hrow, hcol] at hnefrom
    by_cases h1 : tr = fr
    · exact Or.inr fun h2 => hnefrom ⟨h1, h2⟩
    · exact Or.inl h1
  case hbd =>
    rw [hrow, hcol] at hbnd
    exact hbnd
  show (some { type := piece.type, color := piece.color, hasMoved := true } : Option Piece) =
    some { type := PieceType.pawn, color := piece.color, hasMoved := true }
  rw [hty]

/-- Witness for C10: the a7 pawn promotes with no choice supplied and stays
a pawn on a8. -/
theorem promotion_requires_choice_witness :
    (makeMove promoState 1 0 0 0 none).1 = true ∧
      getPiece ((makeMove promoState 1 0 0 0 none).2).board 0 0 =
        some { type := PieceType.pawn, color := Color.white, hasMoved := true } := by
  have h := promotion_requires_choice promoState 1 0 0 0
    { type := PieceType.pawn, color := Color.white, hasMoved := false }
    { row := 0, col := 0, promotion := true } (by rfl) (by decide) (by decide) (by rfl)
  simpa using h

/-- C1 counterexample: with the validMoves cache computed for the e2 pawn
square (6, 4), makeMove accepts the pair (6, 0) to (5, 4) and mutates the
state, although (5, 4) is not among the legal moves of square (6, 0). -/
theorem makeMove_stale_cache_counterexample :
    ((getValidMoves staleCacheState 6 0).all fun m => !(m.row == 5 && m.col == 4)) = true ∧
      getPiece staleCacheState.board 6 0 =
        some { type := PieceType.pawn, color := Color.white, hasMoved := false } ∧
      (makeMove staleCacheState 6 0 5 4 none).1 = true ∧
      ((makeMove staleCacheState 6 0 5 4 none).2).board ≠ staleCacheState.board := by
  refine ⟨by decide, by decide, by decide, ?_⟩
  intro hcon
  have h54 : getPiece ((makeMove staleCacheState 6 0 5 4 none).2).board 5 4 =
      getPiece staleCacheState.board 5 4 := by rw [hcon]
  revert h54
  decide

/-- C1 (amended): makeMove fails with no mutation when the from-square is
empty or when no entry of this.validMoves matches the destination; when
validMoves is the legal-move list of the from-square, as ChessUI.selectPiece
guarantees, any pair outside that square's legal moves is therefore
rejected without mutation. -/
theorem makeMove_rejects_unlisted (g : GameState) (fr fc tr tc : Int)
    (promo : Option PieceType) :
    (getPiece g.board fr fc = none → makeMove g fr fc tr tc promo = (false, g)) ∧
      ((g.validMoves.find? fun m => m.row == tr && m.col == tc) = none →
        makeMove g fr fc tr tc promo = (false, g)) ∧
      (g.validMoves = getValidMoves g fr fc →
        (∀ m ∈ getValidMoves g fr fc, ¬(m.row = tr ∧ m.col = tc)) →
        makeMove g fr fc tr tc promo = (false, g)) := by
  refine ⟨fun hp => by simp only [makeMove, hp], fun hfind => ?_, fun hvm hnot => ?_⟩
  · unfold makeMove
    rcases hp : getPiece g.board fr fc with _ | piece
    · rfl
    · simp only [hfind]
  · have hfind : (g.validMoves.find? fun m => m.row == tr && m.col == tc) = none := by
      rw [hvm]
      apply List.find?_eq_none.mpr
      intro m hm
      have := hnot m hm
      simp only [Bool.and_eq_true, beq_iff_eq, not_and] at this ⊢
      intro h1
      exact fun h2 => (this h1) h2
    unfold makeMove
    rcases hp : getPiece g.board fr fc with _ | piece
    · rfl
    · simp only [hfind]

/-- Witness for C1 (amended): a move submitted from an empty square of the
initial position is rejected without mutation. -/
theorem makeMove_rejects_unlisted_witness :
    makeMove resetState 3 3 4 4 none = (false, resetState) := by
  exact (makeMove_rejects_unlisted resetState 3 3 4 4 none).1 (by decide)

/-- The attack-only diagonal is pushed regardless of what occupies it. -/
theorem pawnDiag_attack_mem {b : Board} {ep : Option Sq} {row col : Int} {p : Piece}
    {dc : Int}
    (hb : 0 ≤ row + pawnDir p ∧ row + pawnDir p ≤ 7 ∧ 0 ≤ col + dc ∧ col + dc ≤ 7) :
    ({ row := row + pawnDir p, col := col + dc } : MoveInfo) ∈ pawnDiag b ep row col p true dc := by
  unfold pawnDiag
  rw [if_pos hb]
  exact List.mem_append.mpr (Or.inl (by simp))

/-- The non-attack diagonal capture is pushed when an enemy occupies it. -/
theorem pawnDiag_capture_mem {b : Board} {ep : Option Sq} {row col : Int} {p t : Piece}
    {dc : Int}
    (hb : 0 ≤ row + pawnDir p ∧ row + pawnDir p ≤ 7 ∧ 0 ≤ col + dc ∧ col + dc ≤ 7)
    (ht : getPiece b (row + pawnDir p) (col + dc) = some t) (hcol : t.color ≠ p.color) :
    ({ row := row + pawnDir p, col := col + dc, capture := true,
       promotion := decide (row + pawnDir p = promotionRowOf p) } : MoveInfo) ∈
      pawnDiag b ep row col p false dc := by
  unfold pawnDiag
  rw [if_pos hb]
  refine List.mem_append.mpr (Or.inl ?_)
  simp only [ht, Bool.false_eq_true, if_false]
  rw [if_pos hcol]
  exact List.mem_singleton.mpr rfl

/-- The en passant capture is pushed when the diagonal is the target. -/
theorem pawnDiag_ep_mem {b : Board} {ep : Option Sq} {row col : Int} {p : Piece}
    {dc : Int}
    (hb : 0 ≤ row + pawnDir p ∧ row + pawnDir p ≤ 7 ∧ 0 ≤ col + dc ∧ col + dc ≤ 7)
    (hep : ep = some ⟨row + pawnDir p, col + dc⟩) :
    ({ row := row + pawnDir p, col := col + dc, enPassant := true,
       capture := true } : MoveInfo) ∈ pawnDiag b ep row col p false dc := by
  unfold pawnDiag
  rw [if_pos hb]
  refine List.mem_append.mpr (Or.inr ?_)
  rw [if_pos (by simp [hep])]
  exact List.mem_singleton.mpr rfl

/-- C8: a pawn attacks its forward diagonals regardless of occupancy (this is
what isSquareAttacked consumes), whereas the move generator emits a diagonal
pawn move, always flagged as a capture, exactly when an enemy piece occupies
the diagonal or the diagonal is the en-passant target. -/
theorem pawn_attack_move_asymmetry (b : Board) (ep : Option Sq) (row col : Int)
    (p : Piece) (dc : Int)
    (hp : getPiece b row col = some p) (hty : p.type = PieceType.pawn)
    (hdc : dc = -1 ∨ dc = 1)
    (hb1 : 0 ≤ row + pawnDir p) (hb2 : row + pawnDir p ≤ 7)
    (hb3 : 0 ≤ col + dc) (hb4 : col + dc ≤ 7) :
    isSquareAttacked b ep (row + pawnDir p) (col + dc) p.color = true ∧
      ((∃ m ∈ getRawMoves b ep row col p,
          m.row = row + pawnDir p ∧ m.col = col + dc ∧ m.capture = true) ↔
        ((∃ t, getPiece b (row + pawnDir p) (col + dc) = some t ∧ t.color ≠ p.color) ∨
          ep = some ⟨row + pawnDir p, col + dc⟩)) := by
  obtain ⟨hr0, hr7, hc0, hc7⟩ := bounds_of_getPiece_some hp
  constructor
  · simp only [isSquareAttacked, List.any_eq_true, List.mem_range]
    refine ⟨row.toNat, by omega, col.toNat, by omega, ?_⟩
    rw [Int.toNat_of_nonneg hr0, Int.toNat_of_nonneg hc0]
    simp only [hp, Bool.and_eq_true, beq_iff_eq]
    refine ⟨trivial, ?_⟩
    rw [List.any_eq_true]
    refine ⟨{ row := row + pawnDir p, col := col + dc }, ?_, by simp⟩
    simp only [getRawAttackMoves, hty, getPawnMoves]
    refine List.mem_append.mpr ?_
    rcases hdc with rfl | rfl
    · exact Or.inl (List.mem_append.mpr (Or.inr (pawnDiag_attack_mem ⟨hb1, hb2, hb3, hb4⟩)))
    · exact Or.inr (pawnDiag_attack_mem ⟨hb1, hb2, hb3, hb4⟩)
  · constructor
    · rintro ⟨m, hm, hmr, hmc, hmcap⟩
      simp only [getRawMoves, hty, getPawnMoves, Bool.false_eq_true, if_false] at hm
      rcases List.mem_append.mp hm with hm | hm
      rcases List.mem_append.mp hm with hm | hm
      · obtain ⟨-, -, hcap, -⟩ := mem_pawnForward hm
        rw [hmcap] at hcap
        exact absurd hcap (by simp)
      · obtain ⟨-, -, -, -, hcol, -, -, -, -, hcases⟩ := mem_pawnDiag hm
        have : dc = -1 := by omega
        subst this
        rcases hcases with ⟨-, -, t, ht, htc⟩ | ⟨-, -, hept⟩
        · exact Or.inl ⟨t, ht, htc⟩
        · rw [hmr, hmc] at hept
          exact Or.inr hept
      · obtain ⟨-, -, -, -, hcol, -, -, -, -, hcases⟩ := mem_pawnDiag hm
        have : dc = 1 := by omega
        subst this
        rcases hcases with ⟨-, -, t, ht, htc⟩ | ⟨-, -, hept⟩
        · exact Or.inl ⟨t, ht, htc⟩
        · rw [hmr, hmc] at hept
          exact Or.inr hept
    · intro hoccup
      have hmem :
          ∀ mv : MoveInfo, mv ∈ pawnDiag b ep row col p false dc →
            mv ∈ getRawMoves b ep row col p := by
        intro mv hmv
        simp only [getRawMoves, hty, getPawnMoves, Bool.false_eq_true, if_false]
        rcases hdc with rfl | rfl
        · exact List.mem_append.mpr (Or.inl (List.mem_append.mpr (Or.inr hmv)))
        · exact List.mem_append.mpr (Or.inr hmv)
      rcases hoccup with ⟨t, ht, htc⟩ | hept
      · exact ⟨_, hmem _ (pawnDiag_capture_mem ⟨hb1, hb2, hb3, hb4⟩ ht htc), rfl, rfl, rfl⟩
      · exact ⟨_, hmem _ (pawnDiag_ep_mem ⟨hb1, hb2, hb3, hb4⟩ hept), rfl, rfl, rfl⟩

/-- Witness for C8: the untouched initial position already shows both sides:
the empty square d3 = (5, 3) is attacked by the e2 pawn, yet no capture to
d3 is generated for it. -/
theorem pawn_attack_move_asymmetry_witness :
    isSquareAttacked resetState.board none ((6 : Int) + pawnDir
        { type := PieceType.pawn, color := Color.white, hasMoved := false })
      ((4 : Int) + -1) Color.white = true ∧
      ¬((∃ t, getPiece resetState.board ((6 : Int) + pawnDir
          { type := PieceType.pawn, color := Color.white, hasMoved := false })
          ((4 : Int) + -1) = some t ∧ t.color ≠ Color.white) ∨
        (none : Option Sq) = some ⟨(6 : Int) + pawnDir
          { type := PieceType.pawn, color := Color.white, hasMoved := false },
          (4 : Int) + -1⟩) := by
  have h := pawn_attack_move_asymmetry resetState.board none 6 4
    { type := PieceType.pawn, color := Color.white, hasMoved := false } (-1)
    (by decide) rfl (Or.inl rfl) (by decide) (by decide) (by decide) (by decide)
  exact ⟨h.1, by decide⟩

/-- Restoring the board, en-passant target and turn from their snapshots
after a speculative ChessAI.makeSimulatedMove recovers the original state
(with whatever turn is written); stated in the record shape the loop bodies
produce. -/
theorem simRestoreFlat (g : GameState) (mv : FullMove) (t : Color) :
    ({ board := g.board, currentTurn := t,
       validMoves := (makeSimulatedMove g mv).validMoves,
       moveHistory := (makeSimulatedMove g mv).moveHistory,
       capturedWhite := (makeSimulatedMove g mv).capturedWhite,
       capturedBlack := (makeSimulatedMove g mv).capturedBlack,
       enPassantTarget := g.enPassantTarget,
       gameOver := (makeSimulatedMove g mv).gameOver,
       winner := (makeSimulatedMove g mv).winner,
       isCheck := (makeSimulatedMove g mv).isCheck,
       lastMove := (makeSimulatedMove g mv).lastMove } : GameState) =
      { g with currentTurn := t } := by
  rcases hx : getPiece g.board mv.fromSq.row mv.fromSq.col with _ | piece <;>
    simp only [makeSimulatedMove, hx]

/-- The maximizing loop hands back the state it was given: every iteration
restores its snapshots. -/
theorem maxLoop_state (recurse : GameState → EInt → EInt → EInt × GameState)
    (turn : Color) (hrec : ∀ g a b, (recurse g a b).2 = g) :
    ∀ (moves : List FullMove) (g : GameState) (best alpha beta : EInt),
      g.currentTurn = turn → (maxLoop recurse turn moves g best alpha beta).2 = g := by
  intro moves
  induction moves with
  | nil => intro g best alpha beta _; rfl
  | cons mv rest ih =>
    intro g best alpha beta hturn
    subst hturn
    simp only [maxLoop, copyBoard, hrec, simRestoreFlat]
    split
    · rfl
    · exact ih _ _ _ _ rfl

/-- The minimizing loop hands back the state it was given. -/
theorem minLoop_state (recurse : GameState → EInt → EInt → EInt × GameState)
    (turn : Color) (hrec : ∀ g a b, (recurse g a b).2 = g) :
    ∀ (moves : List FullMove) (g : GameState) (best alpha beta : EInt),
      g.currentTurn = turn → (minLoop recurse turn moves g best alpha beta).2 = g := by
  intro moves
  induction moves with
  | nil => intro g best alpha beta _; rfl
  | cons mv rest ih =>
    intro g best alpha beta hturn
    subst hturn
    simp only [minLoop, copyBoard, hrec, simRestoreFlat]
    split
    · rfl
    · exact ih _ _ _ _ rfl

/-- ChessAI.minimax returns the caller's state unchanged: every speculative
mutation is rolled back before it returns. -/
theorem minimax_state (cfg : AIConfig) (aiColor : Color) :
    ∀ (d : Nat) (g : GameState) (alpha beta : EInt) (isMax : Bool),
      (minimax cfg aiColor d g alpha beta isMax).2 = g := by
  intro d
  induction d with
  | zero => intro g alpha beta isMax; rfl
  | succ d ih =>
    intro g alpha beta isMax
    simp only [minimax]
    split
    · split <;> rfl
    · split
      · exact maxLoop_state _ _ (fun g2 a b => ih g2 a b false) _ _ _ _ _ rfl
      · exact minLoop_state _ _ (fun g2 a b => ih g2 a b true) _ _ _ _ _ rfl

/-- Taking a maximum with a finite score never yields minus infinity. -/
theorem EInt.max_ne_negInf {b s : EInt} (hs : s ≠ EInt.negInf) :
    EInt.max b s ≠ EInt.negInf := by
  unfold EInt.max
  split
  · exact hs
  · intro hb
    subst hb
    simp [EInt.le] at *

/-- Taking a minimum of two scores above minus infinity stays above it. -/
theorem EInt.min_ne_negInf {b s : EInt} (hb : b ≠ EInt.negInf) (hs : s ≠ EInt.negInf) :
    EInt.min b s ≠ EInt.negInf := by
  unfold EInt.min
  split
  · exact hb
  · exact hs

/-- Minus infinity is strictly below every other extended score. -/
theorem EInt.negInf_lt {s : EInt} (hs : s ≠ EInt.negInf) :
    EInt.lt EInt.negInf s = true := by
  cases s
  · exact absurd rfl hs
  · rfl
  · rfl

/-- The maximizing loop never returns minus infinity once the running best is
above it or at least one move is processed. -/
theorem maxLoop_ne_negInf (recurse : GameState → EInt → EInt → EInt × GameState)
    (turn : Color) (hrec : ∀ g a b, (recurse g a b).1 ≠ EInt.negInf) :
    ∀ (moves : List FullMove) (g : GameState) (best alpha beta : EInt),
      (moves ≠ [] ∨ best ≠ EInt.negInf) →
      (maxLoop recurse turn moves g best alpha beta).1 ≠ EInt.negInf := by
  intro moves
  induction moves with
  | nil =>
    intro g best alpha beta h
    exact h.resolve_left (by simp)
  | cons mv rest ih =>
    intro g best alpha beta _
    simp only [maxLoop]
    split
    · exact EInt.max_ne_negInf (hrec _ _ _)
    · exact ih _ _ _ _ (Or.inr (EInt.max_ne_negInf (hrec _ _ _)))

/-- The minimizing loop never returns minus infinity when its running best is
above it. -/
theorem minLoop_ne_negInf (recurse : GameState → EInt → EInt → EInt × GameState)
    (turn : Color) (hrec : ∀ g a b, (recurse g a b).1 ≠ EInt.negInf) :
    ∀ (moves : List FullMove) (g : GameState) (best alpha beta : EInt),
      best ≠ EInt.negInf →
      (minLoop recurse turn moves g best alpha beta).1 ≠ EInt.negInf := by
  intro moves
  induction moves with
  | nil => intro g best alpha beta h; exact h
  | cons mv rest ih =>
    intro g best alpha beta h
    simp only [minLoop]
    split
    · exact EInt.min_ne_negInf h (hrec _ _ _)
    · exact ih _ _ _ _ (EInt.min_ne_negInf h (hrec _ _ _))

/-- ChessAI.minimax never returns minus infinity: leaf and no-move scores are
finite and the loops keep finite scores. -/
theorem minimax_ne_negInf (cfg : AIConfig) (aiColor : Color) :
    ∀ (d : Nat) (g : GameState) (alpha beta : EInt) (isMax : Bool),
      (minimax cfg aiColor d g alpha beta isMax).1 ≠ EInt.negInf := by
  intro d
  induction d with
  | zero => intro g alpha beta isMax; simp [minimax]
  | succ d ih =>
    intro g alpha beta isMax
    simp only [minimax]
    split
    case isTrue =>
      split
      · split <;> simp
      · simp
    case isFalse hne =>
      split
      · refine maxLoop_ne_negInf _ _ (fun g2 a b => ih g2 a b false) _ _ _ _ _
          (Or.inl ?_)
        intro hnil
        rw [hnil] at hne
        simp at hne
      · exact minLoop_ne_negInf _ _ (fun g2 a b => ih g2 a b true) _ _ _ _ _ (by simp)

/-- The root loop of getBestMove hands back the state it was given. -/
theorem bestMoveLoop_state (cfg : AIConfig) (aiColor : Color) :
    ∀ (moves : List FullMove) (g : GameState) (bm : Option FullMove) (bs : EInt),
      (bestMoveLoop cfg aiColor moves g bm bs).2 = g := by
  intro moves
  induction moves with
  | nil => intro g bm bs; rfl
  | cons mv rest ih =>
    intro g bm bs
    simp only [bestMoveLoop, copyBoard, minimax_state, simRestoreFlat]
    split <;> exact ih _ _ _

/-- Once the root loop holds a candidate move it never drops it. -/
theorem bestMoveLoop_keeps_some (cfg : AIConfig) (aiColor : Color) :
    ∀ (moves : List FullMove) (g : GameState) (mv0 : FullMove) (bs : EInt),
      (bestMoveLoop cfg aiColor moves g (some mv0) bs).1.isSome = true := by
  intro moves
  induction moves with
  | nil => intro g mv0 bs; rfl
  | cons mv rest ih =>
    intro g mv0 bs
    simp only [bestMoveLoop]
    split
    · exact ih _ _ _
    · exact ih _ _ _

/-- Starting from no candidate and minus infinity, a nonempty root loop
always produces a move: the first finite score beats minus infinity. -/
theorem bestMoveLoop_some (cfg : AIConfig) (aiColor : Color)
    (mv : FullMove) (rest : List FullMove) (g : GameState) :
    (bestMoveLoop cfg aiColor (mv :: rest) g none EInt.negInf).1.isSome = true := by
  simp only [bestMoveLoop]
  rw [if_pos (EInt.negInf_lt (minimax_ne_negInf cfg aiColor _ _ _ _ _))]
  exact bestMoveLoop_keeps_some cfg aiColor _ _ _ _

/-- C9: getBestMove returns the caller's game state exactly as it received
it (every speculative mutation of the board, the en-passant target and the
turn is restored from snapshots before returning), and it returns the null
sentinel exactly when the side to move has no legal move. -/
theorem getBestMove_frame_and_none_sentinel (cfg : AIConfig) (g : GameState)
    (randHit : Bool) (randIdx : Nat) :
    ((getBestMove cfg g randHit randIdx).1 = none ↔
      getAllValidMoves g g.currentTurn = []) ∧
      (getBestMove cfg g randHit randIdx).2 = g := by
  simp only [getBestMove]
  by_cases h : (getAllValidMoves g g.currentTurn).length = 0
  · rw [dif_pos h]
    exact ⟨by simpa using List.length_eq_zero.mp h, rfl⟩
  · rw [dif_neg h]
    have hne : getAllValidMoves g g.currentTurn ≠ [] := by
      intro hnil
      rw [hnil] at h
      exact h rfl
    by_cases hrand : 0 < cfg.randomFactor ∧ randHit = true
    · rw [if_pos hrand]
      exact ⟨by simpa using hne, rfl⟩
    · rw [if_neg hrand]
      refine ⟨?_, bestMoveLoop_state cfg g.currentTurn _ _ _ _⟩
      rcases hs : sortMoves (getAllValidMoves g g.currentTurn) g with _ | ⟨mv, rest⟩
      · have := congrArg List.length hs
        rw [sortMoves, List.length_mergeSort] at this
        exact absurd this (by simpa using h)
      · have hsome := bestMoveLoop_some cfg g.currentTurn mv rest g
        constructor
        · intro hnone
          rw [hnone] at hsome
          exact absurd hsome (by simp)
        · intro hnil
          exact absurd hnil hne

/-- One-equation description of a bounds-checked write followed by a read. -/
theorem getPiece_setPiece (b : Board) (v : Option Piece) (r0 c0 r c : Int) :
    getPiece (setPiece b r0 c0 v) r c =
      if 0 ≤ r0 ∧ r0 ≤ 7 ∧ 0 ≤ c0 ∧ c0 ≤ 7 ∧ r = r0 ∧ c = c0 then v
      else getPiece b r c := by
  by_cases hw : 0 ≤ r0 ∧ r0 ≤ 7 ∧ 0 ≤ c0 ∧ c0 ≤ 7
  · by_cases heq : r = r0 ∧ c = c0
    · rw [if_pos ⟨hw.1, hw.2.1, hw.2.2.1, hw.2.2.2, heq.1, heq.2⟩]
      rcases heq with ⟨rfl, rfl⟩
      exact getPiece_setPiece_self hw
    · rw [if_neg (by omega)]
      rcases Decidable.not_and_iff_or_not.mp heq with h | h
      · exact getPiece_setPiece_ne (Or.inl h)
      · exact getPiece_setPiece_ne (Or.inr h)
  · rw [if_neg (by omega), setPiece_out hw]

/-- The piece undoMove rebuilds equals the recorded piece whenever a
promotion record can only concern a pawn. -/
theorem undoPiece_eq (record : MoveRecord)
    (hpawn : record.promotion = true → record.piece.type = PieceType.pawn) :
    undoPiece record = record.piece := by
  unfold undoPiece
  split
  case isTrue hc =>
    have hty := hpawn hc.1
    rcases hpc : record.piece with ⟨t, pc, hm⟩
    rw [hpc] at hty
    simp only at hty
    simp only [createPiece, hty]
  case isFalse => rfl

/-- The promotion replacement layer of makeMoveBoard leaves every cell other
than the destination untouched. -/
theorem promoLayer_skip (b : Board) (tr tc r c : Int) (pc : Color)
    (mi : MoveInfo) (promo : Option PieceType) (hno : ¬(r = tr ∧ c = tc)) :
    getPiece
      (match mi.promotion, promo with
        | true, some pt => setPiece b tr tc (some { createPiece pt pc with hasMoved := true })
        | _, _ => b) r c = getPiece b r c := by
  cases mi.promotion <;> cases promo <;>
    first
      | rfl
      | (rw [getPiece_setPiece, if_neg (by omega)])

/-- Round trip of the board for a plain move (no castling, no en passant):
undoBoard restores every cell written by makeMoveBoard, including a
promotion replacement and a captured piece. -/
theorem undo_make_board_normal (g : GameState) (fr fc tr tc : Int) (piece : Piece)
    (mi : MoveInfo) (promo : Option PieceType)
    (hp : getPiece g.board fr fc = some piece)
    (hpawn : mi.promotion = true → piece.type = PieceType.pawn)
    (htr0 : 0 ≤ tr) (htr7 : tr ≤ 7) (htc0 : 0 ≤ tc) (htc7 : tc ≤ 7)
    (hne : ¬(tr = fr ∧ tc = fc))
    (hca : mi.castling = none) (hepb : mi.enPassant = false) :
    undoBoard (makeMoveBoard g.board fr fc tr tc piece mi promo)
      (recordOf g fr fc tr tc piece mi promo) = g.board := by
  obtain ⟨hfr0, hfr7, hfc0, hfc7⟩ := bounds_of_getPiece_some hp
  apply board_ext
  intro r c hr0 hr7 hc0 hc7
  simp only [undoBoard, makeMoveBoard, recordOf, capturedOf, hca, hepb,
    Bool.false_eq_true, if_false]
  rcases hcap : getPiece g.board tr tc with _ | cap
  · by_cases hto : r = tr ∧ c = tc
    · rw [getPiece_setPiece, if_pos ⟨htr0, htr7, htc0, htc7, hto.1, hto.2⟩]
      rw [hto.1, hto.2, hcap]
    · rw [getPiece_setPiece, if_neg (by omega)]
      by_cases hfrom : r = fr ∧ c = fc
      · rw [getPiece_setPiece, if_pos ⟨hfr0, hfr7, hfc0, hfc7, hfrom.1, hfrom.2⟩]
        rw [undoPiece_eq _ hpawn, hfrom.1, hfrom.2, hp]
      · rw [getPiece_setPiece, if_neg (by omega)]
        rw [promoLayer_skip _ _ _ _ _ _ _ _ hto]
        rw [getPiece_setPiece, if_neg (by omega)]
        rw [getPiece_setPiece, if_neg (by omega)]
  · by_cases hto : r = tr ∧ c = tc
    · rw [getPiece_setPiece, if_pos ⟨htr0, htr7, htc0, htc7, hto.1, hto.2⟩]
      rw [hto.1, hto.2, hcap]
    · rw [getPiece_setPiece, if_neg (by omega)]
      rw [getPiece_setPiece, if_neg (by omega)]
      by_cases hfrom : r = fr ∧ c = fc
      · rw [getPiece_setPiece, if_pos ⟨hfr0, hfr7, hfc0, hfc7, hfrom.1, hfrom.2⟩]
        rw [undoPiece_eq _ hpawn, hfrom.1, hfrom.2, hp]
      · rw [getPiece_setPiece, if_neg (by omega)]
        rw [promoLayer_skip _ _ _ _ _ _ _ _ hto]
        rw [getPiece_setPiece, if_neg (by omega)]
        rw [getPiece_setPiece, if_neg (by omega)]

/-- Round trip of the board for an en passant capture: the capture square is
the from-row at the destination column, and undoBoard puts the captured pawn
back there. -/
theorem undo_make_board_ep (g : GameState) (fr fc tr tc : Int) (piece : Piece)
    (mi : MoveInfo) (promo : Option PieceType)
    (hp : getPiece g.board fr fc = some piece)
    (hpawn : mi.promotion = false)
    (htr0 : 0 ≤ tr) (htr7 : tr ≤ 7) (htc0 : 0 ≤ tc) (htc7 : tc ≤ 7)
    (hrowdir : tr = fr + pawnDir piece)
    (hcoldc : tc = fc + -1 ∨ tc = fc + 1)
    (hept : getPiece g.board tr tc = none)
    (hca : mi.castling = none) (hepb : mi.enPassant = true) :
    undoBoard (makeMoveBoard g.board fr fc tr tc piece mi promo)
      (recordOf g fr fc tr tc piece mi promo) = g.board := by
  obtain ⟨hfr0, hfr7, hfc0, hfc7⟩ := bounds_of_getPiece_some hp
  have hdir : pawnDir piece = -1 ∨ pawnDir piece = 1 := by
    rcases pawn_consts piece with ⟨h, -, -⟩ | ⟨h, -, -⟩
    · exact Or.inl h
    · exact Or.inr h
  have hcr : epCapRow piece tr = fr := by
    unfold epCapRow
    by_cases hw : piece.color = Color.white <;>
      simp only [pawnDir, hw, if_true, if_false, reduceIte] at hrowdir ⊢ <;> omega
  have hrne : ¬(tr = fr) := by rcases hdir with h | h <;> omega
  have hcne : ¬(tc = fc) := by rcases hcoldc with h | h <;> omega
  have hnopawn : mi.promotion = true → piece.type = PieceType.pawn := by
    intro hx
    rw [hpawn] at hx
    exact absurd hx (by simp)
  apply board_ext
  intro r c hr0 hr7 hc0 hc7
  simp only [undoBoard, makeMoveBoard, recordOf, capturedOf, hca, hepb,
    Bool.false_eq_true, if_false, if_true, reduceIte]
  rw [undoPiece_eq _ hnopawn]
  rw [hcr]
  rcases hfcap : getPiece g.board fr tc with _ | cap
  · by_cases hto : r = tr ∧ c = tc
    · rw [getPiece_setPiece, if_pos ⟨htr0, htr7, htc0, htc7, hto.1, hto.2⟩]
      rw [hto.1, hto.2, hept]
    · rw [getPiece_setPiece, if_neg (by omega)]
      by_cases hfrom : r = fr ∧ c = fc
      · rw [getPiece_setPiece, if_pos ⟨hfr0, hfr7, hfc0, hfc7, hfrom.1, hfrom.2⟩]
        rw [hfrom.1, hfrom.2, hp]
      · rw [getPiece_setPiece, if_neg (by omega)]
        rw [promoLayer_skip _ _ _ _ _ _ _ _ hto]
        rw [getPiece_setPiece, if_neg (by omega)]
        rw [getPiece_setPiece, if_neg (by omega)]
        by_cases hcapc : r = fr ∧ c = tc
        · rw [getPiece_setPiece, if_pos ⟨hfr0, hfr7, htc0, htc7, hcapc.1, hcapc.2⟩]
          rw [hcapc.1, hcapc.2, hfcap]
        · rw [getPiece_setPiece, if_neg (by omega)]
  · by_cases hcapc : r = fr ∧ c = tc
    · rw [getPiece_setPiece, if_pos ⟨hfr0, hfr7, htc0, htc7, hcapc.1, hcapc.2⟩]
      rw [hcapc.1, hcapc.2, hfcap]
    · rw [getPiece_setPiece, if_neg (by omega)]
      by_cases hto : r = tr ∧ c = tc
      · rw [getPiece_setPiece, if_pos ⟨htr0, htr7, htc0, htc7, hto.1, hto.2⟩]
        rw [hto.1, hto.2, hept]
      · rw [getPiece_setPiece, if_neg (by omega)]
        by_cases hfrom : r = fr ∧ c = fc
        · rw [getPiece_setPiece, if_pos ⟨hfr0, hfr7, hfc0, hfc7, hfrom.1, hfrom.2⟩]
          rw [hfrom.1, hfrom.2, hp]
        · rw [getPiece_setPiece, if_neg (by omega)]
          rw [promoLayer_skip _ _ _ _ _ _ _ _ hto]
          rw [getPiece_setPiece, if_neg (by omega)]
          rw [getPiece_setPiece, if_neg (by omega)]
          rw [getPiece_setPiece, if_neg (by omega)]

/-- Round trip of the board for kingside castling: the king returns to the
from-square and the rook returns from column 5 to column 7 with its moved
flag cleared. -/
theorem undo_make_board_castleK (g : GameState) (fr fc : Int) (piece rk : Piece)
    (mi : MoveInfo) (promo : Option PieceType)
    (hp : getPiece g.board fr fc = some piece)
    (hca : mi.castling = some CastleSide.kingside)
    (hepb : mi.enPassant = false) (hpromo : mi.promotion = false)
    (hrkp : getPiece g.board fr 7 = some rk) (hrkmv : rk.hasMoved = false)
    (he5 : getPiece g.board fr 5 = none) (he6 : getPiece g.board fr 6 = none)
    (hfc5 : ¬(fc = 5)) (hfc6 : ¬(fc = 6)) (hfc7 : ¬(fc = 7)) :
    undoBoard (makeMoveBoard g.board fr fc fr 6 piece mi promo)
      (recordOf g fr fc fr 6 piece mi promo) = g.board := by
  obtain ⟨hfr0, hfr7, hfc0, hfc7b⟩ := bounds_of_getPiece_some hp
  have hnopawn : mi.promotion = true → piece.type = PieceType.pawn := by
    intro hx
    rw [hpromo] at hx
    exact absurd hx (by simp)
  have hrkeq : ({ ({ rk with hasMoved := true } : Piece) with hasMoved := false } : Piece) = rk := by
    rcases rk with ⟨t, cl, hm⟩
    simp only at hrkmv
    rw [hrkmv]
  apply board_ext
  intro r c hr0 hr7 hc0 hc7
  simp only [undoBoard, makeMoveBoard, recordOf, capturedOf, hca, hepb,
    Bool.false_eq_true, if_false, he6, Option.map_some']
  rw [undoPiece_eq _ hnopawn]
  rw [hrkp, Option.map_some']
  rw [getPiece_setPiece]
  by_cases h7 : r = fr ∧ c = 7
  · rw [if_pos ⟨hfr0, hfr7, by omega, by omega, h7.1, h7.2⟩]
    rw [getPiece_setPiece, if_neg (by omega)]
    rw [getPiece_setPiece, if_neg (by omega)]
    rw [promoLayer_skip _ _ _ _ _ _ _ _ (by omega)]
    rw [getPiece_setPiece, if_neg (by omega)]
    rw [getPiece_setPiece, if_neg (by omega)]
    rw [getPiece_setPiece, if_pos ⟨hfr0, hfr7, by omega, by omega, rfl, rfl⟩]
    rw [Option.map_some']
    rw [h7.1, h7.2, hrkp, hrkeq]
  · rw [if_neg (by omega)]
    rw [getPiece_setPiece]
    by_cases h5 : r = fr ∧ c = 5
    · rw [if_pos ⟨hfr0, hfr7, by omega, by omega, h5.1, h5.2⟩]
      rw [h5.1, h5.2, he5]
    · rw [if_neg (by omega)]
      rw [getPiece_setPiece]
      by_cases hto : r = fr ∧ c = 6
      · rw [if_pos ⟨hfr0, hfr7, by omega, by omega, hto.1, hto.2⟩]
        rw [hto.1, hto.2, he6]
      · rw [if_neg (by omega)]
        rw [getPiece_setPiece]
        by_cases hfrom : r = fr ∧ c = fc
        · rw [if_pos ⟨hfr0, hfr7, hfc0, hfc7b, hfrom.1, hfrom.2⟩]
          rw [hfrom.1, hfrom.2, hp]
        · rw [if_neg (by omega)]
          rw [promoLayer_skip _ _ _ _ _ _ _ _ hto]
          rw [getPiece_setPiece, if_neg (by omega)]
          rw [getPiece_setPiece, if_neg (by omega)]
          rw [getPiece_setPiece, if_neg (by omega)]
          rw [getPiece_setPiece, if_neg (by omega)]

/-- Round trip of the board for queenside castling: the king returns to the
from-square and the rook returns from column 3 to column 0 with its moved
flag cleared. -/
theorem undo_make_board_castleQ (g : GameState) (fr fc : Int) (piece rk : Piece)
    (mi : MoveInfo) (promo : Option PieceType)
    (hp : getPiece g.board fr fc = some piece)
    (hca : mi.castling = some CastleSide.queenside)
    (hepb : mi.enPassant = false) (hpromo : mi.promotion = false)
    (hrkp : getPiece g.board fr 0 = some rk) (hrkmv : rk.hasMoved = false)
    (he1 : getPiece g.board fr 1 = none) (he2 : getPiece g.board fr 2 = none)
    (he3 : getPiece g.board fr 3 = none)
    (hfc0 : ¬(fc = 0)) (hfc1 : ¬(fc = 1)) (hfc2 : ¬(fc = 2)) (hfc3 : ¬(fc = 3)) :
    undoBoard (makeMoveBoard g.board fr fc fr 2 piece mi promo)
      (recordOf g fr fc fr 2 piece mi promo) = g.board := by
  obtain ⟨hfr0, hfr7, hfc0b, hfc7b⟩ := bounds_of_getPiece_some hp
  have hnopawn : mi.promotion = true → piece.type = PieceType.pawn := by
    intro hx
    rw [hpromo] at hx
    exact absurd hx (by simp)
  have hrkeq : ({ ({ rk with hasMoved := true } : Piece) with hasMoved := false } : Piece) = rk := by
    rcases rk with ⟨t, cl, hm⟩
    simp only at hrkmv
    rw [hrkmv]
  apply board_ext
  intro r c hr0 hr7 hc0 hc7
  simp only [undoBoard, makeMoveBoard, recordOf, capturedOf, hca, hepb,
    Bool.false_eq_true, if_false, he2, Option.map_some']
  rw [undoPiece_eq _ hnopawn]
  rw [hrkp, Option.map_some']
  rw [getPiece_setPiece]
  by_cases h0 : r = fr ∧ c = 0
  · rw [if_pos ⟨hfr0, hfr7, by omega, by omega, h0.1, h0.2⟩]
    rw [getPiece_setPiece, if_neg (by omega)]
    rw [getPiece_setPiece, if_neg (by omega)]
    rw [promoLayer_skip _ _ _ _ _ _ _ _ (by omega)]
    rw [getPiece_setPiece, if_neg (by omega)]
    rw [getPiece_setPiece, if_neg (by omega)]
    rw [getPiece_setPiece, if_pos ⟨hfr0, hfr7, by omega, by omega, rfl, rfl⟩]
    rw [Option.map_some']
    rw [h0.1, h0.2, hrkp, hrkeq]
  · rw [if_neg (by omega)]
    rw [getPiece_setPiece]
    by_cases h3 : r = fr ∧ c = 3
    · rw [if_pos ⟨hfr0, hfr7, by omega, by omega, h3.1, h3.2⟩]
      rw [h3.1, h3.2, he3]
    · rw [if_neg (by omega)]
      rw [getPiece_setPiece]
      by_cases hto : r = fr ∧ c = 2
      · rw [if_pos ⟨hfr0, hfr7, by omega, by omega, hto.1, hto.2⟩]
        rw [hto.1, hto.2, he2]
      · rw [if_neg (by omega)]
        rw [getPiece_setPiece]
        by_cases hfrom : r = fr ∧ c = fc
        · rw [if_pos ⟨hfr0, hfr7, hfc0b, hfc7b, hfrom.1, hfrom.2⟩]
          rw [hfrom.1, hfrom.2, hp]
        · rw [if_neg (by omega)]
          rw [promoLayer_skip _ _ _ _ _ _ _ _ hto]
          rw [getPiece_setPiece, if_neg (by omega)]
          rw [getPiece_setPiece, if_neg (by omega)]
          rw [getPiece_setPiece, if_neg (by omega)]
          rw [getPiece_setPiece, if_neg (by omega)]

/-- Round trip of the board for any move produced by getRawMoves: the case
split over en passant and the two castling sides, each discharged by the
corresponding cell-by-cell lemma, with the side facts recovered from the
generator inversion. -/
theorem undo_make_board (g : GameState) (fr fc tr tc : Int) (piece : Piece)
    (mi : MoveInfo) (promo : Option PieceType)
    (hp : getPiece g.board fr fc = some piece)
    (hm : mi ∈ getRawMoves g.board g.enPassantTarget fr fc piece)
    (htr : mi.row = tr) (htc : mi.col = tc)
    (hepE : epTargetEmpty g) :
    undoBoard (makeMoveBoard g.board fr fc tr tc piece mi promo)
      (recordOf g fr fc tr tc piece mi promo) = g.board := by
  obtain ⟨⟨hb1, hb2, hb3, hb4⟩, hne, hepf, hcaf, hprf⟩ := mem_getRawMoves_inv hp hm
  rcases hca : mi.castling with _ | side
  · rcases hepb : mi.enPassant with _ | _
    · exact undo_make_board_normal g fr fc tr tc piece mi promo hp hprf
        (by omega) (by omega) (by omega) (by omega) (by omega) hca hepb
    · obtain ⟨hty, hca2, ht2, hprom, hcap, hept, hrow, hcol⟩ := hepf hepb
      have hde := hepE ⟨mi.row, mi.col⟩ hept
      simp only at hde
      rw [htr, htc] at hde
      exact undo_make_board_ep g fr fc tr tc piece mi promo hp hprom
        (by omega) (by omega) (by omega) (by omega) (by omega) (by omega) hde hca hepb
  · obtain ⟨hking, heppf, ht2, hprom, hrow, hmvd, hchk, hK, hQ⟩ := hcaf side hca
    rcases side with _ | _
    · obtain ⟨hc6, ⟨rk, hrkp, hrkty, hrkmv⟩, he5, he6, ha5, ha6⟩ := hK rfl
      have hfc5 : ¬(fc = 5) := by
        intro h
        rw [h] at hp
        rw [hp] at he5
        exact Option.noConfusion he5
      have hfc6 : ¬(fc = 6) := by
        intro h
        rw [h] at hp
        rw [hp] at he6
        exact Option.noConfusion he6
      have hfc7 : ¬(fc = 7) := by
        intro h
        rw [h] at hp
        rw [hrkp] at hp
        rcases Option.some.inj hp with rfl
        rw [hrkty] at hking
        exact PieceType.noConfusion hking
      have htrfr : tr = fr := by omega
      have htc6 : tc = 6 := by omega
      subst htrfr
      subst htc6
      exact undo_make_board_castleK g tr fc piece rk mi promo hp hca heppf hprom
        hrkp hrkmv he5 he6 hfc5 hfc6 hfc7
    · obtain ⟨hc2, ⟨rk, hrkp, hrkty, hrkmv⟩, he1, he2, he3, ha2, ha3⟩ := hQ rfl
      have hfc1 : ¬(fc = 1) := by
        intro h
        rw [h] at hp
        rw [hp] at he1
        exact Option.noConfusion he1
      have hfc2 : ¬(fc = 2) := by
        intro h
        rw [h] at hp
        rw [hp] at he2
        exact Option.noConfusion he2
      have hfc3 : ¬(fc = 3) := by
        intro h
        rw [h] at hp
        rw [hp] at he3
        exact Option.noConfusion he3
      have hfc0 : ¬(fc = 0) := by
        intro h
        rw [h] at hp
        rw [hrkp] at hp
        rcases Option.some.inj hp with rfl
        rw [hrkty] at hking
        exact PieceType.noConfusion hking
      have htrfr : tr = fr := by omega
      have htc2 : tc = 2 := by omega
      subst htrfr
      subst htc2
      exact undo_make_board_castleQ g tr fc piece rk mi promo hp hca heppf hprom
        hrkp hrkmv he1 he2 he3 hfc0 hfc1 hfc2 hfc3

/-- What undoMove computes on a nonempty history, field by field. -/
theorem undoMove_fields (g' : GameState) (record : MoveRecord) (rest : List MoveRecord)
    (hh : g'.moveHistory = record :: rest) :
    (undoMove g').1 = true ∧
      (undoMove g').2.board = undoBoard g'.board record ∧
      (undoMove g').2.currentTurn = g'.currentTurn.opposite ∧
      (undoMove g').2.enPassantTarget = record.previousEnPassant ∧
      (undoMove g').2.isCheck =
        isInCheck (undoBoard g'.board record) record.previousEnPassant
          g'.currentTurn.opposite ∧
      (undoMove g').2.gameOver = false ∧
      (undoMove g').2.winner = none := by
  simp only [undoMove, hh]
  repeat' constructor

/-- C2: on a reachable state (validMoves cached for the from-square, game not
over, check flag consistent, en-passant target square empty), a successful
makeMove followed by undoMove reports success and restores the board, the
side to move, the en-passant target, the isCheck flag and the
gameOver/winner terminal status to their exact pre-move values, for every
move kind (plain, capture, promotion, castling, en passant); and undoMove on
an empty history returns false and leaves the state unchanged. -/
theorem makeMove_undoMove_roundtrip (g : GameState) (fr fc tr tc : Int)
    (promo : Option PieceType)
    (hvm : g.validMoves = getValidMoves g fr fc)
    (hgo : g.gameOver = false) (hw : g.winner = none)
    (hchk : g.isCheck = isInCheck g.board g.enPassantTarget g.currentTurn)
    (hepE : epTargetEmpty g)
    (hmk : (makeMove g fr fc tr tc promo).1 = true) :
    ((undoMove (makeMove g fr fc tr tc promo).2).1 = true ∧
      (undoMove (makeMove g fr fc tr tc promo).2).2.board = g.board ∧
      (undoMove (makeMove g fr fc tr tc promo).2).2.currentTurn = g.currentTurn ∧
      (undoMove (makeMove g fr fc tr tc promo).2).2.enPassantTarget = g.enPassantTarget ∧
      (undoMove (makeMove g fr fc tr tc promo).2).2.isCheck = g.isCheck ∧
      (undoMove (makeMove g fr fc tr tc promo).2).2.gameOver = g.gameOver ∧
      (undoMove (makeMove g fr fc tr tc promo).2).2.winner = g.winner) ∧
    ∀ g0 : GameState, g0.moveHistory = [] → undoMove g0 = (false, g0) := by
  constructor
  · rcases hp : getPiece g.board fr fc with _ | piece
    · simp only [makeMove, hp] at hmk
      exact Bool.noConfusion hmk
    · rcases hfind : (g.validMoves.find? fun m => m.row == tr && m.col == tc) with _ | mi
      · simp only [makeMove, hp, hfind] at hmk
        exact Bool.noConfusion hmk
      · obtain ⟨hmem, htr, htc⟩ := find?_dest hfind
        rw [hvm] at hmem
        simp only [getValidMoves] at hmem
        obtain ⟨p, hp', hcolor, hraw, hflt⟩ := mem_getValidMovesB_inv hmem
        rw [hp'] at hp
        rcases Option.some.inj hp with rfl
        have hub := undo_make_board g fr fc tr tc p mi promo hp' hraw htr htc hepE
        simp only [makeMove, hp', hfind]
        have hh2 : (checkGameState (makeMoveState g fr fc tr tc p mi promo)).moveHistory =
            recordOf g fr fc tr tc p mi promo :: g.moveHistory := by
          rw [(checkGameState_preserves _).2.2.2.1]
          rfl
        obtain ⟨hu1, hubd, hut, huep, huchk, hugo, huw⟩ := undoMove_fields _ _ _ hh2
        have hmsb : (makeMoveState g fr fc tr tc p mi promo).board =
            makeMoveBoard g.board fr fc tr tc p mi promo := rfl
        have hmst : (makeMoveState g fr fc tr tc p mi promo).currentTurn =
            g.currentTurn.opposite := rfl
        have hpep : (recordOf g fr fc tr tc p mi promo).previousEnPassant =
            g.enPassantTarget := rfl
        refine ⟨hu1, ?_, ?_, ?_, ?_, ?_, ?_⟩
        · rw [hubd, (checkGameState_preserves _).1, hmsb]
          exact hub
        · rw [hut, (checkGameState_preserves _).2.1, hmst, Color.opposite_opposite]
        · rw [huep, hpep]
        · rw [huchk, (checkGameState_preserves _).1, (checkGameState_preserves _).2.1]
          rw [hmsb, hub, hpep, hmst, Color.opposite_opposite]
          exact hchk.symm
        · rw [hugo, hgo]
        · rw [huw, hw]
  · intro g0 h0
    simp only [undoMove, h0]

/-- Witness for C2: from the initial position with the e-pawn selected, the
move e2-e4 succeeds and the round trip restores every named field. -/
theorem makeMove_undoMove_roundtrip_witness :
    (makeMove staleCacheState 6 4 4 4 none).1 = true ∧
    (((undoMove (makeMove staleCacheState 6 4 4 4 none).2).1 = true ∧
      (undoMove (makeMove staleCacheState 6 4 4 4 none).2).2.board = staleCacheState.board ∧
      (undoMove (makeMove staleCacheState 6 4 4 4 none).2).2.currentTurn =
        staleCacheState.currentTurn ∧
      (undoMove (makeMove staleCacheState 6 4 4 4 none).2).2.enPassantTarget =
        staleCacheState.enPassantTarget ∧
      (undoMove (makeMove staleCacheState 6 4 4 4 none).2).2.isCheck =
        staleCacheState.isCheck ∧
      (undoMove (makeMove staleCacheState 6 4 4 4 none).2).2.gameOver =
        staleCacheState.gameOver ∧
      (undoMove (makeMove staleCacheState 6 4 4 4 none).2).2.winner =
        staleCacheState.winner) ∧
      ∀ g0 : GameState, g0.moveHistory = [] → undoMove g0 = (false, g0)) :=
  ⟨by decide,
    makeMove_undoMove_roundtrip staleCacheState 6 4 4 4 none (by decide) rfl rfl
      (by decide) (fun sq h => Option.noConfusion h) (by decide)⟩

/-- Reading through a write of an empty cell can only find pieces already on
the underlying board. -/
theorem getPiece_through_empty {b : Board} {r0 c0 r c : Int} {q : Piece}
    (hq : getPiece (setPiece b r0 c0 none) r c = some q) :
    getPiece b r c = some q := by
  rw [getPiece_setPiece] at hq
  split at hq
  · exact Option.noConfusion hq
  · exact hq

/-- Reading through a write whose value (when present) carries
hasMoved = true: an unmoved piece found afterwards was already on the
underlying board. -/
theorem getPiece_through_moved {b : Board} {r0 c0 r c : Int} {v : Option Piece}
    {q : Piece} (hv : ∀ x, v = some x → x.hasMoved = true)
    (hq : getPiece (setPiece b r0 c0 v) r c = some q) (hmv : q.hasMoved = false) :
    getPiece b r c = some q := by
  rw [getPiece_setPiece] at hq
  split at hq
  · have := hv q hq
    rw [hmv] at this
    exact Bool.noConfusion this
  · exact hq

/-- Every cell makeMoveBoard writes is either empty or holds a piece with
hasMoved = true, so a piece that is still unmoved afterwards stood unmoved on
the same square before the move. -/
theorem makeMoveBoard_unmoved (b : Board) (fr fc tr tc : Int) (piece : Piece)
    (mi : MoveInfo) (promo : Option PieceType) (r c : Int) (q : Piece)
    (hq : getPiece (makeMoveBoard b fr fc tr tc piece mi promo) r c = some q)
    (hmv : q.hasMoved = false) :
    getPiece b r c = some q := by
  simp only [makeMoveBoard] at hq
  rcases hpm : mi.promotion with _ | _ <;> simp only [hpm] at hq
  case true =>
    rcases hpr : promo with _ | pt <;> simp only [hpr] at hq
    case some =>
      replace hq := getPiece_through_moved
        (fun x hx => by rcases Option.some.inj hx with rfl; rfl) hq hmv
      replace hq := getPiece_through_empty hq
      replace hq := getPiece_through_moved
        (fun x hx => by rcases Option.some.inj hx with rfl; rfl) hq hmv
      rcases hca : mi.castling with _ | side
      · simp only [hca] at hq
        rcases hep : mi.enPassant with _ | _ <;>
          simp only [hep, Bool.false_eq_true, if_false, if_true, reduceIte] at hq
        · exact hq
        · exact getPiece_through_empty hq
      · rcases side with _ | _ <;> simp only [hca] at hq <;>
        · replace hq := getPiece_through_moved (v := Option.map _ _)
            (fun x hx => by
              rcases hy : getPiece (if mi.enPassant then
                  setPiece b (epCapRow piece tr) tc none else b) fr _ with _ | rk
              · rw [hy] at hx
                exact Option.noConfusion hx
              · rw [hy] at hx
                rw [Option.map_some'] at hx
                rcases Option.some.inj hx with rfl
                rfl) hq hmv
          replace hq := getPiece_through_empty hq
          rcases hep : mi.enPassant with _ | _ <;>
            simp only [hep, Bool.false_eq_true, if_false, if_true, reduceIte] at hq
          · exact hq
          · exact getPiece_through_empty hq
    case none =>
      replace hq := getPiece_through_empty hq
      replace hq := getPiece_through_moved
        (fun x hx => by rcases Option.some.inj hx with rfl; rfl) hq hmv
      rcases hca : mi.castling with _ | side
      · simp only [hca] at hq
        rcases hep : mi.enPassant with _ | _ <;>
          simp only [hep, Bool.false_eq_true, if_false, if_true, reduceIte] at hq
        · exact hq
        · exact getPiece_through_empty hq
      · rcases side with _ | _ <;> simp only [hca] at hq <;>
        · replace hq := getPiece_through_moved (v := Option.map _ _)
            (fun x hx => by
              rcases hy : getPiece (if mi.enPassant then
                  setPiece b (epCapRow piece tr) tc none else b) fr _ with _ | rk
              · rw [hy] at hx
                exact Option.noConfusion hx
              · rw [hy] at hx
                rw [Option.map_some'] at hx
                rcases Option.some.inj hx with rfl
                rfl) hq hmv
          replace hq := getPiece_through_empty hq
          rcases hep : mi.enPassant with _ | _ <;>
            simp only [hep, Bool.false_eq_true, if_false, if_true, reduceIte] at hq
          · exact hq
          · exact getPiece_through_empty hq
  case false =>
    replace hq := getPiece_through_empty hq
    replace hq := getPiece_through_moved
      (fun x hx => by rcases Option.some.inj hx with rfl; rfl) hq hmv
    rcases hca : mi.castling with _ | side
    · simp only [hca] at hq
      rcases hep : mi.enPassant with _ | _ <;>
        simp only [hep, Bool.false_eq_true, if_false, if_true, reduceIte] at hq
      · exact hq
      · exact getPiece_through_empty hq
    · rcases side with _ | _ <;> simp only [hca] at hq <;>
      · replace hq := getPiece_through_moved (v := Option.map _ _)
          (fun x hx => by
            rcases hy : getPiece (if mi.enPassant then
                setPiece b (epCapRow piece tr) tc none else b) fr _ with _ | rk
            · rw [hy] at hx
              exact Option.noConfusion hx
            · rw [hy] at hx
              rw [Option.map_some'] at hx
              rcases Option.some.inj hx with rfl
              rfl) hq hmv
        replace hq := getPiece_through_empty hq
        rcases hep : mi.enPassant with _ | _ <;>
          simp only [hep, Bool.false_eq_true, if_false, if_true, reduceIte] at hq
        · exact hq
        · exact getPiece_through_empty hq

/-- The cell relation is reflexive. -/
theorem pieceEquivFor_refl (mover : Color) (x : Option Piece) :
    pieceEquivFor mover x x := by
  rcases x with _ | a
  · trivial
  · exact ⟨rfl, Iff.rfl, fun _ => rfl⟩

/-- Board equivalence determines occupancy and colors cellwise. -/
theorem colors_of_boardEquiv {mover : Color} {b1 b2 : Board}
    (h : boardEquivFor mover b1 b2) (r c : Int) :
    Option.map Piece.color (getPiece b1 r c) = Option.map Piece.color (getPiece b2 r c) := by
  have hc := h r c
  rcases h1 : getPiece b1 r c with _ | a <;> rcases h2 : getPiece b2 r c with _ | a2 <;>
    rw [h1, h2] at hc
  · exact hc.elim
  · exact hc.elim
  · simp only [Option.map_some']
    exact congrArg some hc.1

/-- slideRay reads the board only through occupancy and colors. -/
theorem slideRay_congr {b1 b2 : Board}
    (h : ∀ r c : Int, Option.map Piece.color (getPiece b1 r c) =
      Option.map Piece.color (getPiece b2 r c))
    (pc : Color) (dr dc : Int) :
    ∀ (fuel : Nat) (r c : Int),
      slideRay b1 pc dr dc r c fuel = slideRay b2 pc dr dc r c fuel := by
  intro fuel
  induction fuel with
  | zero => intro r c; rfl
  | succ n ih =>
    intro r c
    simp only [slideRay]
    by_cases hb : 0 ≤ r ∧ r ≤ 7 ∧ 0 ≤ c ∧ c ≤ 7
    · rw [if_pos hb, if_pos hb]
      have hc := h r c
      rcases h1 : getPiece b1 r c with _ | a <;> rcases h2 : getPiece b2 r c with _ | a2 <;>
        rw [h1, h2] at hc <;> simp only [Option.map_some', Option.map_none] at hc <;>
        simp only [h1, h2]
      · rw [ih (r + dr) (c + dc)]
      · exact absurd hc (by simp)
      · exact absurd hc (by simp)
      · rw [Option.some.inj hc]
    · rw [if_neg hb, if_neg hb]

/-- offsetMoves reads the board only through occupancy and colors, and the
piece only through its color. -/
theorem offsetMoves_congr {b1 b2 : Board} {p1 p2 : Piece}
    (h : ∀ r c : Int, Option.map Piece.color (getPiece b1 r c) =
      Option.map Piece.color (getPiece b2 r c))
    (hcol : p1.color = p2.color) (row col : Int) (offs : List (Int × Int)) :
    offsetMoves b1 row col p1 offs = offsetMoves b2 row col p2 offs := by
  unfold offsetMoves
  refine congrArg (fun f => List.filterMap f offs) (funext fun d => ?_)
  dsimp only
  by_cases hb : 0 ≤ row + d.1 ∧ row + d.1 ≤ 7 ∧ 0 ≤ col + d.2 ∧ col + d.2 ≤ 7
  · rw [if_pos hb, if_pos hb]
    have hc := h (row + d.1) (col + d.2)
    rcases h1 : getPiece b1 (row + d.1) (col + d.2) with _ | a <;>
      rcases h2 : getPiece b2 (row + d.1) (col + d.2) with _ | a2 <;>
      rw [h1, h2] at hc <;> simp only [Option.map_some', Option.map_none] at hc <;>
      simp only [h1, h2]
    · exact absurd hc (by simp)
    · exact absurd hc (by simp)
    · rw [Option.some.inj hc, hcol]
  · rw [if_neg hb, if_neg hb]

/-- getSlidingMoves reads the board only through occupancy and colors, and
the piece only through its color. -/
theorem getSlidingMoves_congr {b1 b2 : Board} {p1 p2 : Piece}
    (h : ∀ r c : Int, Option.map Piece.color (getPiece b1 r c) =
      Option.map Piece.color (getPiece b2 r c))
    (hcol : p1.color = p2.color) (row col : Int) (dirs : List (Int × Int)) :
    getSlidingMoves b1 row col p1 dirs = getSlidingMoves b2 row col p2 dirs := by
  unfold getSlidingMoves
  refine congrArg _ (funext fun d => ?_)
  rw [hcol, slideRay_congr h]

/-- The attack-only pawn diagonal as a closed form: it reads neither the
board nor the en-passant target. -/
theorem pawnDiag_attack_eq (b : Board) (ep : Option Sq) (row col : Int)
    (p : Piece) (dc : Int) :
    pawnDiag b ep row col p true dc =
      if 0 ≤ row + pawnDir p ∧ row + pawnDir p ≤ 7 ∧
          0 ≤ col + dc ∧ col + dc ≤ 7 then
        [{ row := row + pawnDir p, col := col + dc }]
      else [] := by
  unfold pawnDiag
  by_cases hb : 0 ≤ row + pawnDir p ∧ row + pawnDir p ≤ 7 ∧ 0 ≤ col + dc ∧ col + dc ≤ 7
  · rw [if_pos hb, if_pos hb]
    simp
  · rw [if_neg hb, if_neg hb]

/-- Attack-only raw move generation reads the board only through occupancy
and colors, reads the en-passant target not at all, and the piece only
through its color and type. -/
theorem getRawAttackMoves_congr {b1 b2 : Board} {p1 p2 : Piece}
    {ep1 ep2 : Option Sq}
    (h : ∀ r c : Int, Option.map Piece.color (getPiece b1 r c) =
      Option.map Piece.color (getPiece b2 r c))
    (hcol : p1.color = p2.color) (hty : p1.type = p2.type) (row col : Int) :
    getRawAttackMoves b1 ep1 row col p1 = getRawAttackMoves b2 ep2 row col p2 := by
  unfold getRawAttackMoves
  rw [← hty]
  have hdir : pawnDir p1 = pawnDir p2 := by unfold pawnDir; rw [hcol]
  rcases p1.type with _ | _ | _ | _ | _ | _
  · exact offsetMoves_congr h hcol row col kingOffsets
  · exact getSlidingMoves_congr h hcol row col (rookDirections ++ bishopDirections)
  · exact getSlidingMoves_congr h hcol row col rookDirections
  · exact getSlidingMoves_congr h hcol row col bishopDirections
  · exact offsetMoves_congr h hcol row col knightOffsets
  · show getPawnMoves b1 ep1 row col p1 true = getPawnMoves b2 ep2 row col p2 true
    unfold getPawnMoves
    simp only [if_true, reduceIte, List.nil_append]
    rw [pawnDiag_attack_eq, pawnDiag_attack_eq, pawnDiag_attack_eq, pawnDiag_attack_eq,
      hdir]

/-- No color equals its own opposite. -/
theorem Color.opposite_ne (c : Color) : ¬(c.opposite = c) := by
  cases c <;> simp [Color.opposite]

/-- isSquareAttacked by the mover's opponent is invariant under the board
equivalence (attackers have equal types and colors, blockers equal occupancy,
and the en-passant target is never read in attack mode). -/
theorem isSquareAttacked_congr {mover : Color} {b1 b2 : Board} {ep1 ep2 : Option Sq}
    (h : boardEquivFor mover b1 b2) (row col : Int) :
    isSquareAttacked b1 ep1 row col mover.opposite =
      isSquareAttacked b2 ep2 row col mover.opposite := by
  unfold isSquareAttacked
  refine congrArg (List.any (List.range 8)) (funext fun r => ?_)
  refine congrArg (List.any (List.range 8)) (funext fun c => ?_)
  have hc := h (r : Int) (c : Int)
  rcases h1 : getPiece b1 (r : Int) (c : Int) with _ | a <;>
    rcases h2 : getPiece b2 (r : Int) (c : Int) with _ | a2 <;>
    rw [h1, h2] at hc
  · exact hc.elim
  · exact hc.elim
  · dsimp only
    rw [hc.1]
    by_cases hbc : a2.color = mover.opposite
    · have hty : a.type = a2.type := by
        refine hc.2.2 ?_
        rw [hc.1, hbc]
        exact Color.opposite_ne mover
      rw [getRawAttackMoves_congr (colors_of_boardEquiv h) hc.1 hty]
    · rw [beq_eq_false_iff_ne.mpr hbc]
      simp only [Bool.false_and]

/-- findKing for the mover is invariant under the board equivalence. -/
theorem findKing_congr {mover : Color} {b1 b2 : Board}
    (h : boardEquivFor mover b1 b2) :
    findKing b1 mover = findKing b2 mover := by
  unfold findKing
  refine congrArg (fun f => List.findSome? f _) (funext fun r => ?_)
  refine congrArg (fun f => List.findSome? f _) (funext fun c => ?_)
  have hc := h r c
  rcases h1 : getPiece b1 r c with _ | a <;>
    rcases h2 : getPiece b2 r c with _ | a2 <;>
    rw [h1, h2] at hc
  · exact hc.elim
  · exact hc.elim
  · dsimp only
    by_cases hd : a.type = PieceType.king ∧ a.color = mover
    · rw [if_pos hd, if_pos ⟨hc.2.1.mp hd.1, by rw [← hc.1]; exact hd.2⟩]
    · rw [if_neg hd,
        if_neg (fun hd2 => hd ⟨hc.2.1.mpr hd2.1, by rw [hc.1]; exact hd2.2⟩)]

/-- isInCheck for the mover is invariant under the board equivalence, for any
two en-passant targets. -/
theorem isInCheck_congr {mover : Color} {b1 b2 : Board} {ep1 ep2 : Option Sq}
    (h : boardEquivFor mover b1 b2) :
    isInCheck b1 ep1 mover = isInCheck b2 ep2 mover := by
  unfold isInCheck
  rw [findKing_congr h]
  rcases he : findKing b2 mover with _ | kp
  · rfl
  · exact isSquareAttacked_congr h kp.row kp.col

/-- The real board produced by makeMove and the board simulateMove checks
are equivalent for check detection on the mover: they differ only in
hasMoved flags and in the promotion substitution, which replaces a
mover-colored pawn by a mover-colored non-king piece on the same square. -/
theorem make_sim_equiv (b : Board) (fr fc tr tc : Int) (piece : Piece)
    (mi : MoveInfo) (promo : Option PieceType)
    (hp : getPiece b fr fc = some piece)
    (hpro : mi.promotion = true → piece.type = PieceType.pawn)
    (hpk : ∀ pt, promo = some pt → ¬(pt = PieceType.king))
    (htr0 : 0 ≤ tr) (htr7 : tr ≤ 7) (htc0 : 0 ≤ tc) (htc7 : tc ≤ 7)
    (hne : ¬(tr = fr ∧ tc = fc)) :
    boardEquivFor piece.color (makeMoveBoard b fr fc tr tc piece mi promo)
      (simulateMove b fr fc tr tc mi) := by
  obtain ⟨hfr0, hfr7, hfc0, hfc7⟩ := bounds_of_getPiece_some hp
  intro r c
  simp only [makeMoveBoard, simulateMove, hp, epCapRow]
  by_cases hto : r = tr ∧ c = tc
  · rcases hto with ⟨rfl, rfl⟩
    rcases hpm : mi.promotion with _ | _
    · rw [getPiece_setPiece_ne (by omega)]
      rw [getPiece_setPiece_self ⟨htr0, htr7, htc0, htc7⟩]
      rw [getPiece_setPiece_ne (by omega)]
      rw [getPiece_setPiece_self ⟨htr0, htr7, htc0, htc7⟩]
      exact ⟨rfl, Iff.rfl, fun _ => rfl⟩
    · rcases promo with _ | pt
      · rw [getPiece_setPiece_ne (by omega)]
        rw [getPiece_setPiece_self ⟨htr0, htr7, htc0, htc7⟩]
        rw [getPiece_setPiece_ne (by omega)]
        rw [getPiece_setPiece_self ⟨htr0, htr7, htc0, htc7⟩]
        exact ⟨rfl, Iff.rfl, fun _ => rfl⟩
      · rw [getPiece_setPiece_self ⟨htr0, htr7, htc0, htc7⟩]
        rw [getPiece_setPiece_ne (by omega)]
        rw [getPiece_setPiece_self ⟨htr0, htr7, htc0, htc7⟩]
        refine ⟨rfl, ?_, fun hcl => absurd rfl hcl⟩
        constructor
        · intro hk
          exact absurd hk (hpk pt rfl)
        · intro hk
          have hpw := hpro hpm
          rw [hpw] at hk
          exact PieceType.noConfusion hk
  · by_cases hfrom : r = fr ∧ c = fc
    · rw [promoLayer_skip _ _ _ _ _ _ _ _ hto]
      rcases hfrom with ⟨rfl, rfl⟩
      rw [getPiece_setPiece_self ⟨hfr0, hfr7, hfc0, hfc7⟩]
      rw [getPiece_setPiece_self ⟨hfr0, hfr7, hfc0, hfc7⟩]
      trivial
    · rw [promoLayer_skip _ _ _ _ _ _ _ _ hto]
      rw [getPiece_setPiece_ne (by omega)]
      rw [getPiece_setPiece_ne (by omega)]
      rw [getPiece_setPiece_ne (by omega)]
      rw [getPiece_setPiece_ne (by omega)]
      rcases hca : mi.castling with _ | side
      · exact pieceEquivFor_refl _ _
      · rcases side with _ | _
        · by_cases h5 : r = fr ∧ c = 5
          · rcases h5 with ⟨rfl, rfl⟩
            rw [getPiece_setPiece_self ⟨hfr0, hfr7, by omega, by omega⟩]
            rw [getPiece_setPiece_self ⟨hfr0, hfr7, by omega, by omega⟩]
            rcases hy : getPiece (if mi.enPassant then
                setPiece b (if piece.color = Color.white then tr + 1 else tr - 1) tc none
              else b) r 7 with _ | rk
            · trivial
            · exact ⟨rfl, Iff.rfl, fun _ => rfl⟩
          · by_cases h7 : r = fr ∧ c = 7
            · rcases h7 with ⟨rfl, rfl⟩
              rw [getPiece_setPiece_ne (by omega)]
              rw [getPiece_setPiece_self ⟨hfr0, hfr7, by omega, by omega⟩]
              rw [getPiece_setPiece_ne (by omega)]
              rw [getPiece_setPiece_self ⟨hfr0, hfr7, by omega, by omega⟩]
              trivial
            · rw [getPiece_setPiece_ne (by omega)]
              rw [getPiece_setPiece_ne (by omega)]
              rw [getPiece_setPiece_ne (by omega)]
              rw [getPiece_setPiece_ne (by omega)]
              exact pieceEquivFor_refl _ _
        · by_cases h3 : r = fr ∧ c = 3
          · rcases h3 with ⟨rfl, rfl⟩
            rw [getPiece_setPiece_self ⟨hfr0, hfr7, by omega, by omega⟩]
            rw [getPiece_setPiece_self ⟨hfr0, hfr7, by omega, by omega⟩]
            rcases hy : getPiece (if mi.enPassant then
                setPiece b (if piece.color = Color.white then tr + 1 else tr - 1) tc none
              else b) r 0 with _ | rk
            · trivial
            · exact ⟨rfl, Iff.rfl, fun _ => rfl⟩
          · by_cases h0 : r = fr ∧ c = 0
            · rcases h0 with ⟨rfl, rfl⟩
              rw [getPiece_setPiece_ne (by omega)]
              rw [getPiece_setPiece_self ⟨hfr0, hfr7, by omega, by omega⟩]
              rw [getPiece_setPiece_ne (by omega)]
              rw [getPiece_setPiece_self ⟨hfr0, hfr7, by omega, by omega⟩]
              trivial
            · rw [getPiece_setPiece_ne (by omega)]
              rw [getPiece_setPiece_ne (by omega)]
              rw [getPiece_setPiece_ne (by omega)]
              rw [getPiece_setPiece_ne (by omega)]
              exact pieceEquivFor_refl _ _

/-- C3: applying a move of the legal-move set (validMoves cached for the
from-square, as every caller of makeMove arranges, and a non-king promotion
choice, as the UI and AI always supply) never results in a position where
the mover's own king is attacked: the isInCheck test on the resulting state,
for the mover's color, is false.  The legality filter simulates each raw
move with its en-passant removal and castling rook relocation before
admitting it, and the simulated board differs from the real one only in
hasMoved flags and the promotion substitution, which check detection cannot
observe. -/
theorem legal_move_keeps_own_king_safe (g : GameState) (fr fc tr tc : Int)
    (promo : Option PieceType) (piece : Piece)
    (hvm : g.validMoves = getValidMoves g fr fc)
    (hp : getPiece g.board fr fc = some piece)
    (hpk : ∀ pt, promo = some pt → ¬(pt = PieceType.king))
    (hmk : (makeMove g fr fc tr tc promo).1 = true) :
    isInCheck (makeMove g fr fc tr tc promo).2.board
      (makeMove g fr fc tr tc promo).2.enPassantTarget piece.color = false := by
  rcases hfind : (g.validMoves.find? fun m => m.row == tr && m.col == tc) with _ | mi
  · simp only [makeMove, hp, hfind] at hmk
    exact Bool.noConfusion hmk
  · obtain ⟨hmem, htr, htc⟩ := find?_dest hfind
    rw [hvm] at hmem
    simp only [getValidMoves] at hmem
    obtain ⟨p, hp', hcolor, hraw, hflt⟩ := mem_getValidMovesB_inv hmem
    rw [hp'] at hp
    rcases Option.some.inj hp with rfl
    obtain ⟨⟨hb1, hb2, hb3, hb4⟩, hne, hepf, hcaf, hprf⟩ := mem_getRawMoves_inv hp' hraw
    have hequiv := make_sim_equiv g.board fr fc tr tc p mi promo hp' hprf hpk
      (by omega) (by omega) (by omega) (by omega) (by omega)
    simp only [makeMove, hp', hfind]
    have hmsb : (makeMoveState g fr fc tr tc p mi promo).board =
        makeMoveBoard g.board fr fc tr tc p mi promo := rfl
    rw [(checkGameState_preserves _).1, hmsb]
    have hic := @isInCheck_congr p.color
      (makeMoveBoard g.board fr fc tr tc p mi promo)
      (simulateMove g.board fr fc tr tc mi)
      ((checkGameState (makeMoveState g fr fc tr tc p mi promo)).enPassantTarget)
      g.enPassantTarget hequiv
    rw [hic]
    rw [htr, htc] at hflt
    exact hflt

/-- Witness for C3: from the initial position with the e-pawn selected, the
move e2-e4 is applied and white is not in check afterwards. -/
theorem legal_move_keeps_own_king_safe_witness :
    staleCacheState.validMoves = getValidMoves staleCacheState 6 4 ∧
    getPiece staleCacheState.board 6 4 = some (createPiece PieceType.pawn Color.white) ∧
    (makeMove staleCacheState 6 4 4 4 none).1 = true ∧
    isInCheck (makeMove staleCacheState 6 4 4 4 none).2.board
      (makeMove staleCacheState 6 4 4 4 none).2.enPassantTarget
      (createPiece PieceType.pawn Color.white).color = false :=
  ⟨by decide, by decide, by decide,
    legal_move_keeps_own_king_safe staleCacheState 6 4 4 4 none
      (createPiece PieceType.pawn Color.white) (by decide) (by decide)
      (fun pt h => Option.noConfusion h) (by decide)⟩

/-- C7: a castling move appears in getValidMoves only when the occupant of
the square is the side-to-move king with hasMoved = false, the king is not
in check, the relevant rook is present with hasMoved = false, every square
between king and rook is empty, and the square the king crosses and its
destination are unattacked (columns 5 and 6 kingside, 2 and 3 queenside);
and the hasMoved flags are permanent: a piece that is unmoved after any
makeMove already stood unmoved on the same square before it, so once the
king or the relevant rook has moved these conditions can never hold again
and castling on that side is never offered again. -/
theorem castling_offer_conditions (g : GameState) (fr fc : Int) (m : MoveInfo)
    (side : CastleSide) (hm : m ∈ getValidMoves g fr fc)
    (hcs : m.castling = some side) :
    (∃ p, getPiece g.board fr fc = some p ∧ p.color = g.currentTurn ∧
      p.type = PieceType.king ∧ p.hasMoved = false ∧
      isInCheck g.board g.enPassantTarget p.color = false ∧ m.row = fr ∧
      (side = CastleSide.kingside →
        m.col = 6 ∧
          (∃ rk, getPiece g.board fr 7 = some rk ∧ rk.type = PieceType.rook ∧
            rk.hasMoved = false) ∧
          getPiece g.board fr 5 = none ∧ getPiece g.board fr 6 = none ∧
          isSquareAttacked g.board g.enPassantTarget fr 5 p.color.opposite = false ∧
          isSquareAttacked g.board g.enPassantTarget fr 6 p.color.opposite = false) ∧
      (side = CastleSide.queenside →
        m.col = 2 ∧
          (∃ rk, getPiece g.board fr 0 = some rk ∧ rk.type = PieceType.rook ∧
            rk.hasMoved = false) ∧
          getPiece g.board fr 1 = none ∧ getPiece g.board fr 2 = none ∧
          getPiece g.board fr 3 = none ∧
          isSquareAttacked g.board g.enPassantTarget fr 2 p.color.opposite = false ∧
          isSquareAttacked g.board g.enPassantTarget fr 3 p.color.opposite = false)) ∧
    (∀ (g2 : GameState) (fr2 fc2 tr2 tc2 : Int) (promo : Option PieceType)
      (r c : Int) (q : Piece),
      getPiece (makeMove g2 fr2 fc2 tr2 tc2 promo).2.board r c = some q →
      q.hasMoved = false → getPiece g2.board r c = some q) := by
  constructor
  · simp only [getValidMoves] at hm
    obtain ⟨p, hp, hcolor, hraw, hflt⟩ := mem_getValidMovesB_inv hm
    obtain ⟨hb, hne, hepf, hcaf, hprf⟩ := mem_getRawMoves_inv hp hraw
    obtain ⟨hking, hep, ht2, hprom, hrow, hmvd, hchk, hKf, hQf⟩ := hcaf side hcs
    exact ⟨p, hp, hcolor, hking, hmvd, hchk, hrow, hKf, hQf⟩
  · intro g2 fr2 fc2 tr2 tc2 promo r c q hq hmv
    rcases hp : getPiece g2.board fr2 fc2 with _ | piece
    · simp only [makeMove, hp] at hq
      exact hq
    · rcases hf : (g2.validMoves.find? fun m2 => m2.row == tr2 && m2.col == tc2) with _ | mi
      · simp only [makeMove, hp, hf] at hq
        exact hq
      · simp only [makeMove, hp, hf] at hq
        rw [(checkGameState_preserves _).1] at hq
        exact makeMoveBoard_unmoved g2.board fr2 fc2 tr2 tc2 piece mi promo r c q hq hmv

/-- Witness for C7: on the initial position with the f1 bishop and g1 knight
removed, kingside castling for white is offered at the king square (7, 4),
and the theorem's conditions follow for it. -/
theorem castling_offer_conditions_witness :
    castleMove ∈ getValidMoves castleState 7 4 ∧
    ((∃ p, getPiece castleState.board 7 4 = some p ∧ p.color = castleState.currentTurn ∧
      p.type = PieceType.king ∧ p.hasMoved = false ∧
      isInCheck castleState.board castleState.enPassantTarget p.color = false ∧
      castleMove.row = 7 ∧
      (CastleSide.kingside = CastleSide.kingside →
        castleMove.col = 6 ∧
          (∃ rk, getPiece castleState.board 7 7 = some rk ∧ rk.type = PieceType.rook ∧
            rk.hasMoved = false) ∧
          getPiece castleState.board 7 5 = none ∧ getPiece castleState.board 7 6 = none ∧
          isSquareAttacked castleState.board castleState.enPassantTarget 7 5
            p.color.opposite = false ∧
          isSquareAttacked castleState.board castleState.enPassantTarget 7 6
            p.color.opposite = false) ∧
      (CastleSide.kingside = CastleSide.queenside →
        castleMove.col = 2 ∧
          (∃ rk, getPiece castleState.board 7 0 = some rk ∧ rk.type = PieceType.rook ∧
            rk.hasMoved = false) ∧
          getPiece castleState.board 7 1 = none ∧ getPiece castleState.board 7 2 = none ∧
          getPiece castleState.board 7 3 = none ∧
          isSquareAttacked castleState.board castleState.enPassantTarget 7 2
            p.color.opposite = false ∧
          isSquareAttacked castleState.board castleState.enPassantTarget 7 3
            p.color.opposite = false)) ∧
    (∀ (g2 : GameState) (fr2 fc2 tr2 tc2 : Int) (promo : Option PieceType)
      (r c : Int) (q : Piece),
      getPiece (makeMove g2 fr2 fc2 tr2 tc2 promo).2.board r c = some q →
      q.hasMoved = false → getPiece g2.board r c = some q)) :=
  ⟨by decide,
    castling_offer_conditions castleState 7 4 castleMove CastleSide.kingside
      (by decide) rfl⟩

end Chess
